import Mathlib

/-!
Verification development for the GWO strategy family of `mealpy/swarm_based/GWO.py`
(classes `BaseGWO`, `RW_GWO`, `GWO_WOA_M`, `GWO_WOA_O`).

Positions are modelled as `List ℚ` (numpy float vectors), fitness values as `ℚ`.
Python true division that can raise `ZeroDivisionError` is modelled by `pyDiv`
returning `Option ℚ`, so each `evolve` is an `Option`-valued function: `none`
models the call raising.

Randomness is modelled by passing the drawn values explicitly: each per-index
loop iteration consumes one record of draws, and the vectors drawn by
`np.random.standard_cauchy` / `create_solution` are supplied as list parameters.

External collaborators from the optimizer framework (`Optimizer` base class)
are not part of the source file; they are modelled from the spec and marked
`Modelled from the spec:` in their doc comments.  The objective function
`get_target_wrapper` and the repair operator `amend_position` are taken as
function parameters `f` and `amend`.
-/

namespace GWO

/-- A candidate solution: a position vector paired with its fitness value
(`[pos, target]` in the source; `tar` is the scalar fitness). -/
structure Solution where
  pos : List ℚ
  tar : ℚ
deriving DecidableEq

instance : Inhabited Solution := ⟨⟨[], 0⟩⟩

/-- The optimizer state visible to `evolve`: the population `self.pop` and the
global best `self.g_best`. -/
structure OptState where
  pop : List Solution
  gBest : Solution
deriving DecidableEq

/-- Evaluation-mode dispatch: `incremental` models `self.mode not in
self.AVAILABLE_MODES` (per-candidate evaluation and in-place replacement),
`batch` models `self.mode in self.AVAILABLE_MODES` (generate all, evaluate as
a batch, merge greedily). -/
inductive EvalMode where
  | incremental
  | batch
deriving DecidableEq

/-- `isBetterFit mm x y = true` iff fitness `x` is strictly better than `y`
under the problem sense (`mm = true` is minimize, `mm = false` maximize). -/
def isBetterFit (mm : Bool) (x y : ℚ) : Bool :=
  if mm then decide (x < y) else decide (y < x)

/-- Modelled from the spec: `get_better_solution(a, b)` (missing from `src/`,
it lives in the external `Optimizer` base class).  Returns the fitter of the
two; on an exact fitness tie it returns the first argument. -/
def get_better_solution (mm : Bool) (a b : Solution) : Solution :=
  if isBetterFit mm b.tar a.tar then b else a

/-- Modelled from the spec: `greedy_selection_population(old, new)` (missing
from `src/`).  Positional slot-by-slot merge: a slot is replaced only when the
new candidate is strictly better; the output has the old population's size and
no slot undefined. -/
def greedy_selection_population (mm : Bool) : List Solution → List Solution → List Solution
  | [], _ => []
  | o :: os, [] => o :: os
  | o :: os, n :: ns =>
    (if isBetterFit mm n.tar o.tar then n else o) :: greedy_selection_population mm os ns

/-- Stable insert used by the fitness sort: the inserted element passes over
strictly better elements and stops before the first tie-or-worse element, so
earlier-index elements win ties. -/
def insertSol (mm : Bool) (s : Solution) : List Solution → List Solution
  | [] => [s]
  | t :: ts => if isBetterFit mm t.tar s.tar then t :: insertSol mm s ts else s :: t :: ts

/-- Modelled from the spec: the fitness sort underlying `get_special_solutions`
and `get_sorted_strim_population` (missing from `src/`): best first, stable by
original index on ties. -/
def sortSol (mm : Bool) (l : List Solution) : List Solution :=
  l.foldr (insertSol mm) []

/-- Modelled from the spec: `get_special_solutions(pop, best=k)` (missing from
`src/`).  Returns `(k worst, k best, full sorted population)`; the strategies
only consume the middle component. -/
def get_special_solutions (mm : Bool) (pop : List Solution) (k : ℕ) :
    List Solution × List Solution × List Solution :=
  let sorted := sortSol mm pop
  (sorted.reverse.take k, sorted.take k, sorted)

/-- Modelled from the spec: `get_sorted_strim_population(pop, size)` (missing
from `src/`): the best `size` members by fitness, sorted. -/
def get_sorted_strim_population (mm : Bool) (pop : List Solution) (size : ℕ) : List Solution :=
  (sortSol mm pop).take size

/-- Modelled from the spec: `update_target_wrapper_population` (missing from
`src/`): batch evaluation of a candidate list, preserving order.  Candidates
are carried as bare positions (`[pos, None]` in the source). -/
def update_target_wrapper_population (f : List ℚ → ℚ) (cands : List (List ℚ)) : List Solution :=
  cands.map (fun p => ⟨p, f p⟩)

/-- Python true division: `none` models a raised `ZeroDivisionError`. -/
def pyDiv (x y : ℚ) : Option ℚ :=
  if y = 0 then none else some (x / y)

/-! ### Elementwise vector helpers (numpy array arithmetic on positions) -/

/-- Elementwise combination of three vectors. -/
def zipWith3 {α β γ δ : Type} (g : α → β → γ → δ) : List α → List β → List γ → List δ
  | x :: xs, y :: ys, z :: zs => g x y z :: zipWith3 g xs ys zs
  | _, _, _ => []

/-- The GWO encircling update `L - A * |C * L - P|`, elementwise. -/
def encirclePos (A C : ℚ) (L P : List ℚ) : List ℚ :=
  List.zipWith (fun li xi => li - A * |C * li - xi|) L P

/-- Elementwise mean of three vectors, `(X1 + X2 + X3) / 3.0`. -/
def mean3 (x y z : List ℚ) : List ℚ :=
  zipWith3 (fun u v w => (u + v + w) / 3) x y z

/-! ### The common per-candidate loop

`BaseGWO.evolve`, the leader-refresh loop of `RW_GWO.evolve` and its
population loop all share the same shape: for each index, compute a candidate
position from the current member (a function `cand` of the member's position
and this iteration's random draws), append it to the running `pop_new` list,
and — in incremental mode only — immediately evaluate it and replace the slot
with `get_better_solution([pos_new, target], pop[idx])`.  The loop is driven
by the list of per-iteration draws: one record per index of
`range(pop_size)` (resp. `range(len(leaders))`). -/
def stdLoop {δ : Type} (mm : Bool) (f : List ℚ → ℚ) (mode : EvalMode)
    (cand : List ℚ → δ → List ℚ) :
    List Solution → List (List ℚ) → ℕ → List δ → List Solution × List (List ℚ)
  | pop, popNew, _, [] => (pop, popNew)
  | pop, popNew, idx, d :: ds =>
    let posNew := cand (pop.getD idx default).pos d
    let popNew1 := popNew ++ [posNew]
    let pop1 :=
      match mode with
      | .incremental =>
        pop.set idx (get_better_solution mm ⟨posNew, f posNew⟩ (pop.getD idx default))
      | .batch => pop
    stdLoop mm f mode cand pop1 popNew1 (idx + 1) ds

/-- The end-of-epoch step shared by the batch branches: evaluate the whole
candidate list and merge it into the population by greedy selection; in
incremental mode the population is left as produced by the loop. -/
def modeMerge (mm : Bool) (f : List ℚ → ℚ) (mode : EvalMode)
    (pop : List Solution) (popNew : List (List ℚ)) : List Solution :=
  match mode with
  | .incremental => pop
  | .batch => greedy_selection_population mm pop (update_target_wrapper_population f popNew)

/-! ### BaseGWO -/

/-- The six uniform draws consumed by one `BaseGWO.evolve` loop iteration:
`A_i = a * (2 * uA_i - 1)`, `C_i = 2 * uC_i`. -/
structure BGDraws where
  uA1 : ℚ
  uA2 : ℚ
  uA3 : ℚ
  uC1 : ℚ
  uC2 : ℚ
  uC3 : ℚ
deriving DecidableEq

/-- One `BaseGWO.evolve` candidate: `X_i = L_i - A_i * |C_i * L_i - P|` for the
three leaders, averaged, then boundary-repaired (`amend_position`). -/
def bgCand (amend : List ℚ → List ℚ) (a : ℚ) (L1 L2 L3 : List ℚ)
    (P : List ℚ) (d : BGDraws) : List ℚ :=
  let A1 := a * (2 * d.uA1 - 1)
  let A2 := a * (2 * d.uA2 - 1)
  let A3 := a * (2 * d.uA3 - 1)
  let C1 := 2 * d.uC1
  let C2 := 2 * d.uC2
  let C3 := 2 * d.uC3
  let X1 := encirclePos A1 C1 L1 P
  let X2 := encirclePos A2 C2 L2 P
  let X3 := encirclePos A3 C3 L3 P
  amend (mean3 X1 X2 X3)

/-- `BaseGWO.evolve(epoch)` with `t` the current epoch and `T` the configured
total (`self.epoch`).  `a = 2 - 2 * t / (T - 1)` with the unguarded Python
division; `none` models the `ZeroDivisionError` raised when `T = 1`. -/
def baseGWO_evolve (mm : Bool) (f : List ℚ → ℚ) (amend : List ℚ → List ℚ)
    (mode : EvalMode) (t T : ℕ) (draws : List BGDraws) (s : OptState) : Option OptState :=
  (pyDiv (2 * (t : ℚ)) ((T : ℚ) - 1)).map fun q =>
    let a := 2 - q
    let listBest := (get_special_solutions mm s.pop 3).2.1
    let L1 := (listBest.getD 0 default).pos
    let L2 := (listBest.getD 1 default).pos
    let L3 := (listBest.getD 2 default).pos
    let r := stdLoop mm f mode (bgCand amend a L1 L2 L3) s.pop [] 0 draws
    ⟨modeMerge mm f mode r.1 r.2, s.gBest⟩

/-! ### Spec-side description of BaseGWO (written from the spec's words,
for the refinement claim about §4.6) -/

/-- The top-3 leaders by fitness rank of the pre-epoch population. -/
def top3 (mm : Bool) (pop : List Solution) : List Solution :=
  (sortSol mm pop).take 3

/-- Written from the spec: `X_i = L_i.position - A_i * |C_i * L_i.position -
candidate.position|` with `A_i = a * (2 * U - 1)`, `C_i = 2 * U`, and the new
position the elementwise mean of `X1, X2, X3`. -/
def specGwoPosition (a : ℚ) (L1 L2 L3 P : List ℚ) (d : BGDraws) : List ℚ :=
  mean3
    (List.zipWith (fun li xi => li - (a * (2 * d.uA1 - 1)) * |(2 * d.uC1) * li - xi|) L1 P)
    (List.zipWith (fun li xi => li - (a * (2 * d.uA2 - 1)) * |(2 * d.uC2) * li - xi|) L2 P)
    (List.zipWith (fun li xi => li - (a * (2 * d.uA3 - 1)) * |(2 * d.uC3) * li - xi|) L3 P)

/-- Written from the spec (§4.6 plus §4.3/§4.4): leaders are the top-3 of the
pre-epoch population; each member's candidate is the repaired mean position;
incremental mode replaces each slot with the better of the evaluated candidate
and the incumbent, batch mode evaluates the whole candidate list and merges it
greedily. -/
def specBaseGWO_evolve (mm : Bool) (f : List ℚ → ℚ) (amend : List ℚ → List ℚ)
    (mode : EvalMode) (t T : ℕ) (draws : List BGDraws) (s : OptState) : OptState :=
  let a := 2 - 2 * (t : ℚ) / ((T : ℚ) - 1)
  let L := top3 mm s.pop
  let L1 := (L.getD 0 default).pos
  let L2 := (L.getD 1 default).pos
  let L3 := (L.getD 2 default).pos
  let cands := List.zipWith
    (fun (o : Solution) d => amend (specGwoPosition a L1 L2 L3 o.pos d)) s.pop draws
  match mode with
  | .incremental =>
    ⟨List.zipWith (fun (o : Solution) c => get_better_solution mm ⟨c, f c⟩ o) s.pop cands,
      s.gBest⟩
  | .batch =>
    ⟨greedy_selection_population mm s.pop (update_target_wrapper_population f cands), s.gBest⟩

/-! ### RW_GWO -/

/-- The six uniform draws of one `RW_GWO.evolve` population-loop iteration:
`miu_i = b * (2 * m_i - 1)` (Eq. 3), `c_i = 2 * cU_i` (Eq. 4). -/
structure RWDraws where
  m1 : ℚ
  m2 : ℚ
  m3 : ℚ
  cU1 : ℚ
  cU2 : ℚ
  cU3 : ℚ
deriving DecidableEq

/-- One leader random-walk candidate of `RW_GWO.evolve`:
`leaders[i] + a * standard_cauchy(n_dims)`, boundary-repaired. -/
def rwLeaderCand (amend : List ℚ → List ℚ) (a : ℚ) (P cvec : List ℚ) : List ℚ :=
  amend (List.zipWith (fun x c => x + a * c) P cvec)

/-- One `RW_GWO.evolve` population candidate: `X_i = leaders[i] - miu_i *
|c_i * g_best - P|` averaged over the three (refreshed) leaders — note the
distance term uses the global best's position — then boundary-repaired. -/
def rwCand (amend : List ℚ → List ℚ) (b : ℚ) (L1 L2 L3 G : List ℚ)
    (P : List ℚ) (d : RWDraws) : List ℚ :=
  let miu1 := b * (2 * d.m1 - 1)
  let miu2 := b * (2 * d.m2 - 1)
  let miu3 := b * (2 * d.m3 - 1)
  let c1 := 2 * d.cU1
  let c2 := 2 * d.cU2
  let c3 := 2 * d.cU3
  let X1 := zipWith3 (fun li gi xi => li - miu1 * |c1 * gi - xi|) L1 G P
  let X2 := zipWith3 (fun li gi xi => li - miu2 * |c2 * gi - xi|) L2 G P
  let X3 := zipWith3 (fun li gi xi => li - miu3 * |c3 * gi - xi|) L3 G P
  amend (mean3 X1 X2 X3)

/-- The leader random-walk loop of `RW_GWO.evolve` (lines with
`## Random walk here`) followed by its batch-mode merge: one iteration per
leader, per the active evaluation mode. -/
def rwLeaderPhase (mm : Bool) (f : List ℚ → ℚ) (amend : List ℚ → List ℚ)
    (mode : EvalMode) (a : ℚ) (leaders0 : List Solution) (cauchy : List (List ℚ)) :
    List Solution :=
  let rl := stdLoop mm f mode (rwLeaderCand amend a) leaders0 [] 0 cauchy
  modeMerge mm f mode rl.1 rl.2

/-- The population-update loop of `RW_GWO.evolve` (`## Update other wolfs`)
followed by its batch-mode merge. -/
def rwPopPhase (mm : Bool) (f : List ℚ → ℚ) (amend : List ℚ → List ℚ)
    (mode : EvalMode) (b : ℚ) (leaders : List Solution) (G : List ℚ)
    (pop : List Solution) (draws : List RWDraws) : List Solution :=
  let L1 := (leaders.getD 0 default).pos
  let L2 := (leaders.getD 1 default).pos
  let L3 := (leaders.getD 2 default).pos
  let rp := stdLoop mm f mode (rwCand amend b L1 L2 L3 G) pop [] 0 draws
  modeMerge mm f mode rp.1 rp.2

/-- `RW_GWO.evolve(epoch)`.  `cauchy` supplies the three `standard_cauchy`
vectors of the leader random walk (one per leader), `draws` the per-member
uniform draws.  Both `b` and `a` are the unguarded `2 - 2 * t / (T - 1)`;
`none` models the `ZeroDivisionError` raised when `T = 1`. -/
def rw_evolve (mm : Bool) (f : List ℚ → ℚ) (amend : List ℚ → List ℚ)
    (mode : EvalMode) (popSize : ℕ) (t T : ℕ) (cauchy : List (List ℚ))
    (draws : List RWDraws) (s : OptState) : Option OptState := do
  let qb ← pyDiv (2 * (t : ℚ)) ((T : ℚ) - 1)
  let b := 2 - qb
  let qa ← pyDiv (2 * (t : ℚ)) ((T : ℚ) - 1)
  let a := 2 - qa
  let leaders0 := (get_special_solutions mm s.pop 3).2.1
  let leaders := rwLeaderPhase mm f amend mode a leaders0 cauchy
  let pop2 := rwPopPhase mm f amend mode b leaders s.gBest.pos s.pop draws
  some ⟨get_sorted_strim_population mm (pop2 ++ leaders) popSize, s.gBest⟩

/-- Written from the spec (§4.7 step 2): `X_i = leader_i.position - mu_i *
|c_i * g_best.position - candidate.position|` averaged over the 3 refreshed
leaders. -/
def specRwPosition (b : ℚ) (L1 L2 L3 G P : List ℚ) (d : RWDraws) : List ℚ :=
  mean3
    (zipWith3 (fun li gi xi => li - (b * (2 * d.m1 - 1)) * |(2 * d.cU1) * gi - xi|) L1 G P)
    (zipWith3 (fun li gi xi => li - (b * (2 * d.m2 - 1)) * |(2 * d.cU2) * gi - xi|) L2 G P)
    (zipWith3 (fun li gi xi => li - (b * (2 * d.m3 - 1)) * |(2 * d.cU3) * gi - xi|) L3 G P)

/-- Written from the spec (§4.7 step 1): each of the 3 leaders takes an
independent Cauchy random-walk step scaled by `a`, repaired and greedily
merged into the leader set per the active mode. -/
def specRwLeaderPhase (mm : Bool) (f : List ℚ → ℚ) (amend : List ℚ → List ℚ)
    (mode : EvalMode) (a : ℚ) (L0 : List Solution) (cauchy : List (List ℚ)) :
    List Solution :=
  let walkCands := List.zipWith
    (fun (L : Solution) c => amend (List.zipWith (fun x cv => x + a * cv) L.pos c)) L0 cauchy
  match mode with
  | .incremental =>
    List.zipWith (fun (L : Solution) cp => get_better_solution mm ⟨cp, f cp⟩ L) L0 walkCands
  | .batch => greedy_selection_population mm L0 (update_target_wrapper_population f walkCands)

/-- Written from the spec (§4.7 step 2): every member is updated by the
3-leader average with the global-best distance term, repaired, and
evaluated/replaced per mode. -/
def specRwPopPhase (mm : Bool) (f : List ℚ → ℚ) (amend : List ℚ → List ℚ)
    (mode : EvalMode) (b : ℚ) (leaders : List Solution) (G : List ℚ)
    (pop : List Solution) (draws : List RWDraws) : List Solution :=
  let L1 := (leaders.getD 0 default).pos
  let L2 := (leaders.getD 1 default).pos
  let L3 := (leaders.getD 2 default).pos
  let cands := List.zipWith
    (fun (o : Solution) d => amend (specRwPosition b L1 L2 L3 G o.pos d)) pop draws
  match mode with
  | .incremental =>
    List.zipWith (fun (o : Solution) c => get_better_solution mm ⟨c, f c⟩ o) pop cands
  | .batch => greedy_selection_population mm pop (update_target_wrapper_population f cands)

/-- Written from the spec (§4.7): phase 1 refreshes each of the 3 leaders by a
Cauchy random-walk step scaled by `a`, repaired and greedily merged into the
leader set (per the active mode); phase 2 pulls every member toward the
refreshed leaders with the global-best distance term, repaired and
evaluated/replaced per mode; phase 3 keeps the best `pop_size` members of the
union of the updated population and the refreshed leaders. -/
def specRW_evolve (mm : Bool) (f : List ℚ → ℚ) (amend : List ℚ → List ℚ)
    (mode : EvalMode) (popSize : ℕ) (t T : ℕ) (cauchy : List (List ℚ))
    (draws : List RWDraws) (s : OptState) : OptState :=
  let a := 2 - 2 * (t : ℚ) / ((T : ℚ) - 1)
  let b := 2 - 2 * (t : ℚ) / ((T : ℚ) - 1)
  let leaders := specRwLeaderPhase mm f amend mode a (top3 mm s.pop) cauchy
  let pop2 := specRwPopPhase mm f amend mode b leaders s.gBest.pos s.pop draws
  ⟨get_sorted_strim_population mm (pop2 ++ leaders) popSize, s.gBest⟩

/-! ### GWO_WOA_M -/

/-- The draws of one `GWO_WOA_M.evolve` loop iteration, in source order:
`r1`, `r2`, the uniform inside `l`, the branch probability `p`, then the six
uniforms for `A1, C1, A2, C2, A3, C3`.  `xRand` is the position of the
`create_solution(lb, ub)` reference point drawn in the exploration branch
(modelled from the spec: a uniform-random position within bounds). -/
structure MDraws where
  r1 : ℚ
  r2 : ℚ
  lr : ℚ
  p : ℚ
  uA1 : ℚ
  uC1 : ℚ
  uA2 : ℚ
  uC2 : ℚ
  uA3 : ℚ
  uC3 : ℚ
  xRand : List ℚ
deriving DecidableEq

/-- The 3-leader exploitation average as the hybrid variants actually compute
it: `X1 = L1 - A1 * |C2 * L1 - P|`, `X2 = L2 - A2 * |C1 * L2 - P|`,
`X3 = L3 - A3 * |C3 * L3 - P|` — the first two `C` coefficients are paired
with the opposite leader (`D1` uses `C2` and `D2` uses `C1` in the source). -/
def gwoExploit3 (A1 A2 A3 C1 C2 C3 : ℚ) (L1 L2 L3 P : List ℚ) : List ℚ :=
  mean3 (encirclePos A1 C2 L1 P) (encirclePos A2 C1 L2 P) (encirclePos A3 C3 L3 P)

/-- The raw (pre-repair) position one `GWO_WOA_M.evolve` iteration computes:
`p < 0.5` and `|A| < 1` encircles the global best; `p < 0.5` and `|A| >= 1`
encircles the fresh random reference point; `p >= 0.5` takes the 3-leader
exploitation average. -/
def mPosNew (a : ℚ) (gB L1 L2 L3 P : List ℚ) (d : MDraws) : List ℚ :=
  let A := 2 * a * d.r1 - a
  let C := 2 * d.r2
  if d.p < 1/2 then
    if |A| < 1 then encirclePos A C gB P
    else encirclePos A C d.xRand P
  else
    gwoExploit3 (a * (2 * d.uA1 - 1)) (a * (2 * d.uA2 - 1)) (a * (2 * d.uA3 - 1))
      (2 * d.uC1) (2 * d.uC2) (2 * d.uC3) L1 L2 L3 P

/-- The `GWO_WOA_M.evolve` per-candidate loop.  Faithful to the source's
indentation: boundary repair, the `pop_new.append`, and the incremental
evaluation/replacement all sit inside the `p >= 0.5` branch only, while the
batch-mode merge (`if self.mode in self.AVAILABLE_MODES`) runs at the bottom
of every iteration.  In the `p < 0.5` branches the computed position is bound
and then discarded, exactly as in the source.  The unused `l` and `b = 1` of
the source are pure dead bindings and are noted here rather than carried. -/
def mLoop (mm : Bool) (f : List ℚ → ℚ) (amend : List ℚ → List ℚ) (mode : EvalMode)
    (a : ℚ) (gB L1 L2 L3 : List ℚ) :
    List Solution → List (List ℚ) → ℕ → List MDraws → List Solution × List (List ℚ)
  | pop, popNew, _, [] => (pop, popNew)
  | pop, popNew, idx, d :: ds =>
    let posRaw := mPosNew a gB L1 L2 L3 (pop.getD idx default).pos d
    if d.p < 1/2 then
      -- pos_new is computed but neither repaired, appended, nor evaluated
      let _ := posRaw
      let pop1 := modeMerge mm f mode pop popNew
      mLoop mm f amend mode a gB L1 L2 L3 pop1 popNew (idx + 1) ds
    else
      let posNew := amend posRaw
      let popNew1 := popNew ++ [posNew]
      let pop1 :=
        match mode with
        | .incremental =>
          pop.set idx (get_better_solution mm ⟨posNew, f posNew⟩ (pop.getD idx default))
        | .batch => pop
      let pop2 := modeMerge mm f mode pop1 popNew1
      mLoop mm f amend mode a gB L1 L2 L3 pop2 popNew1 (idx + 1) ds

/-- `GWO_WOA_M.evolve(epoch)`.  `a = 2 - 2 * t / (T - 1)` (unguarded: `none`
models the `ZeroDivisionError` at `T = 1`); the auxiliary
`a2 = -1 + t * ((-1) / T - 1)` feeds only the unused spiral parameter `l`. -/
def gwoWoaM_evolve (mm : Bool) (f : List ℚ → ℚ) (amend : List ℚ → List ℚ)
    (mode : EvalMode) (t T : ℕ) (draws : List MDraws) (s : OptState) : Option OptState := do
  let q ← pyDiv (2 * (t : ℚ)) ((T : ℚ) - 1)
  let a := 2 - q
  let q2 ← pyDiv (-1) ((T : ℚ))
  let _a2 := -1 + (t : ℚ) * (q2 - 1)
  let listBest := (get_special_solutions mm s.pop 3).2.1
  let L1 := (listBest.getD 0 default).pos
  let L2 := (listBest.getD 1 default).pos
  let L3 := (listBest.getD 2 default).pos
  let r := mLoop mm f amend mode a s.gBest.pos L1 L2 L3 s.pop [] 0 draws
  some ⟨r.1, s.gBest⟩

/-! ### GWO_WOA_O -/

/-- The draws of one `GWO_WOA_O.evolve` loop iteration, in source order:
`r1`, `r2`, `r3`, `w`, `l = uniform(-1, 1)` (recorded as `lr`), the branch
probability `p`, then the six uniforms for `A1, C1, A2, C2, A3, C3`; `xRand`
as in `GWO_WOA_M`. -/
structure ODraws where
  r1 : ℚ
  r2 : ℚ
  r3 : ℚ
  w : ℚ
  lr : ℚ
  p : ℚ
  uA1 : ℚ
  uC1 : ℚ
  uA2 : ℚ
  uC2 : ℚ
  uA3 : ℚ
  uC3 : ℚ
  xRand : List ℚ
deriving DecidableEq

/-- The logarithmic-spiral exploration position of `GWO_WOA_O.evolve`:
`D = (w * exp(b * l) * cos(2 * pi * l)) * |C1 * L1 - P|` and
`pos_new = x_rand - A * D`.  Generic in the scalar field so it can be read
over `ℝ` with the true `Real.exp` / `Real.cos` / `π` (the source's `np.exp`,
`np.cos`, `np.pi`) and over `ℚ` with stand-in functions inside the executable
embedding. -/
def exploreO {K : Type} [LinearOrderedField K] (rexp rcos : K → K) (rpi : K)
    (A w b l C1 : K) (xRand L1 P : List K) : List K :=
  let S := w * rexp (b * l) * rcos (2 * rpi * l)
  let D := (List.zipWith (fun li xi => |C1 * li - xi|) L1 P).map (fun z => S * z)
  List.zipWith (fun xr dz => xr - A * dz) xRand D

/-- The raw (pre-repair) position one `GWO_WOA_O.evolve` iteration computes:
as `GWO_WOA_M` but the encircling branch scales the distance by the extra
uniform `r3`, and the exploration branch uses the spiral term around the
distance from the best leader (`b = 1` in the source). -/
def oPosNew (rexp rcos : ℚ → ℚ) (rpi : ℚ) (a : ℚ) (gB L1 L2 L3 P : List ℚ)
    (d : ODraws) : List ℚ :=
  let A := 2 * a * d.r1 - a
  let C := 2 * d.r2
  if d.p < 1/2 then
    if |A| < 1 then List.zipWith (fun g x => g - A * (d.r3 * |C * g - x|)) gB P
    else exploreO rexp rcos rpi A d.w 1 d.lr (2 * d.uC1) d.xRand L1 P
  else
    gwoExploit3 (a * (2 * d.uA1 - 1)) (a * (2 * d.uA2 - 1)) (a * (2 * d.uA3 - 1))
      (2 * d.uC1) (2 * d.uC2) (2 * d.uC3) L1 L2 L3 P

/-- The `GWO_WOA_O.evolve` per-candidate loop; same shape as `mLoop` (repair,
append and incremental replacement only in the `p >= 0.5` branch, batch merge
at the bottom of every iteration, `p < 0.5` positions discarded). -/
def oLoop (mm : Bool) (f : List ℚ → ℚ) (amend : List ℚ → List ℚ)
    (rexp rcos : ℚ → ℚ) (rpi : ℚ) (mode : EvalMode)
    (a : ℚ) (gB L1 L2 L3 : List ℚ) :
    List Solution → List (List ℚ) → ℕ → List ODraws → List Solution × List (List ℚ)
  | pop, popNew, _, [] => (pop, popNew)
  | pop, popNew, idx, d :: ds =>
    let posRaw := oPosNew rexp rcos rpi a gB L1 L2 L3 (pop.getD idx default).pos d
    if d.p < 1/2 then
      let _ := posRaw
      let pop1 := modeMerge mm f mode pop popNew
      oLoop mm f amend rexp rcos rpi mode a gB L1 L2 L3 pop1 popNew (idx + 1) ds
    else
      let posNew := amend posRaw
      let popNew1 := popNew ++ [posNew]
      let pop1 :=
        match mode with
        | .incremental =>
          pop.set idx (get_better_solution mm ⟨posNew, f posNew⟩ (pop.getD idx default))
        | .batch => pop
      let pop2 := modeMerge mm f mode pop1 popNew1
      oLoop mm f amend rexp rcos rpi mode a gB L1 L2 L3 pop2 popNew1 (idx + 1) ds

/-- The decay coefficient of `GWO_WOA_O.evolve`:
`a = 2 * (1 - epoch / (2 * self.epoch))`; the division fails only if the
configured total is zero (which the validator rules out). -/
def gwoWoaO_a (t T : ℕ) : Option ℚ :=
  (pyDiv (t : ℚ) (2 * (T : ℚ))).map fun q => 2 * (1 - q)

/-- `GWO_WOA_O.evolve(epoch)`. -/
def gwoWoaO_evolve (mm : Bool) (f : List ℚ → ℚ) (amend : List ℚ → List ℚ)
    (rexp rcos : ℚ → ℚ) (rpi : ℚ) (mode : EvalMode) (t T : ℕ)
    (draws : List ODraws) (s : OptState) : Option OptState := do
  let a ← gwoWoaO_a t T
  let listBest := (get_special_solutions mm s.pop 3).2.1
  let L1 := (listBest.getD 0 default).pos
  let L2 := (listBest.getD 1 default).pos
  let L3 := (listBest.getD 2 default).pos
  let r := oLoop mm f amend rexp rcos rpi mode a s.gBest.pos L1 L2 L3 s.pop [] 0 draws
  some ⟨r.1, s.gBest⟩

/-! ### Spec-side formula for the claim about the hybrid exploitation pairing -/

/-- The 3-leader exploitation average exactly as the claim states it: each
coefficient pair `(A_i, C_i)` paired with leader `L_i`. -/
def specPairedExploit (A1 A2 A3 C1 C2 C3 : ℚ) (L1 L2 L3 P : List ℚ) : List ℚ :=
  mean3 (encirclePos A1 C1 L1 P) (encirclePos A2 C2 L2 P) (encirclePos A3 C3 L3 P)

/-- The spiral exploration position exactly as the claim states it:
`pos_new = x_rand - A * (w * exp(b * l) * cos(2 * pi * l)) * |C1 * L1 - P|`,
elementwise. -/
def specSpiralPos {K : Type} [LinearOrderedField K] (rexp rcos : K → K) (rpi : K)
    (A w b l C1 : K) (xRand L1 P : List K) : List K :=
  zipWith3 (fun xr li xi => xr - A * (w * rexp (b * l) * rcos (2 * rpi * l)) * |C1 * li - xi|)
    xRand L1 P

/-- The coordinatewise bounds invariant: every coordinate of `pos` lies in
`[lb[i], ub[i]]`. -/
def InBounds (lb ub pos : List ℚ) : Prop :=
  ∀ i ∈ List.range pos.length, lb.getD i 0 ≤ pos.getD i 0 ∧ pos.getD i 0 ≤ ub.getD i 0

/-! ## Supporting lemmas -/

lemma getD_append_length (pre : List Solution) (x : Solution) (rest : List Solution) :
    (pre ++ x :: rest).getD pre.length default = x := by
  induction pre with
  | nil => rfl
  | cons h t ih => simpa [List.getD] using ih

lemma set_append_length (pre : List Solution) (x v : Solution) (rest : List Solution) :
    (pre ++ x :: rest).set pre.length v = pre ++ v :: rest := by
  induction pre with
  | nil => rfl
  | cons h t ih => simp [List.set, ih]

lemma length_insertSol (mm : Bool) (s : Solution) (l : List Solution) :
    (insertSol mm s l).length = l.length + 1 := by
  induction l with
  | nil => rfl
  | cons t ts ih => by_cases h : isBetterFit mm t.tar s.tar = true <;> simp [insertSol, h, ih]

lemma length_sortSol (mm : Bool) (l : List Solution) :
    (sortSol mm l).length = l.length := by
  induction l with
  | nil => rfl
  | cons x xs ih => simp [sortSol, List.foldr] at ih ⊢; rw [length_insertSol, ih]

lemma mem_insertSol {mm : Bool} {s x : Solution} {l : List Solution} :
    x ∈ insertSol mm s l → x = s ∨ x ∈ l := by
  induction l with
  | nil => intro h; simpa [insertSol] using h
  | cons t ts ih =>
    intro h
    by_cases hb : isBetterFit mm t.tar s.tar = true
    · rw [insertSol, if_pos hb] at h
      rcases List.mem_cons.mp h with h1 | h1
      · exact Or.inr (by simp [h1])
      · rcases ih h1 with h2 | h2
        · exact Or.inl h2
        · exact Or.inr (List.mem_cons_of_mem t h2)
    · rw [insertSol, if_neg hb] at h
      exact List.mem_cons.mp h

lemma mem_sortSol {mm : Bool} {x : Solution} {l : List Solution} :
    x ∈ sortSol mm l → x ∈ l := by
  induction l with
  | nil => intro h; simp [sortSol] at h
  | cons y ys ih =>
    intro h
    have h' : x ∈ insertSol mm y (sortSol mm ys) := h
    rcases mem_insertSol h' with h1 | h1
    · simp [h1]
    · exact List.mem_cons_of_mem y (ih h1)

lemma length_greedy (mm : Bool) :
    ∀ old new : List Solution, (greedy_selection_population mm old new).length = old.length
  | [], _ => by cases ‹List Solution› <;> rfl
  | _ :: _, [] => by simp [greedy_selection_population]
  | o :: os, n :: ns => by
    simp only [greedy_selection_population, List.length_cons]
    rw [length_greedy mm os ns]

lemma mem_greedy {mm : Bool} {x : Solution} :
    ∀ {old new : List Solution}, x ∈ greedy_selection_population mm old new →
      x ∈ old ∨ x ∈ new
  | [], _, h => by simp [greedy_selection_population] at h
  | o :: os, [], h => Or.inl (by simpa [greedy_selection_population] using h)
  | o :: os, n :: ns, h => by
    simp only [greedy_selection_population, List.mem_cons] at h
    rcases h with h | h
    · by_cases hb : isBetterFit mm n.tar o.tar = true
      · simp only [hb, if_true] at h; exact Or.inr (by simp [h])
      · simp only [hb, if_false] at h; exact Or.inl (by simp [h])
    · rcases mem_greedy h with h1 | h1
      · exact Or.inl (List.mem_cons_of_mem o h1)
      · exact Or.inr (List.mem_cons_of_mem n h1)

lemma get_better_solution_cases (mm : Bool) (a b : Solution) :
    get_better_solution mm a b = a ∨ get_better_solution mm a b = b := by
  unfold get_better_solution
  by_cases h : isBetterFit mm b.tar a.tar = true <;> simp [h]

lemma getD_mem : ∀ {l : List Solution} {i : ℕ}, i < l.length → l.getD i default ∈ l
  | [], i, h => by simp at h
  | x :: xs, 0, _ => by simp [List.getD]
  | x :: xs, i + 1, h => List.mem_cons_of_mem x (getD_mem (by simpa using h))

lemma zipWith_zipWith_same {α β γ δ : Type} (g : α → γ → δ) (h : α → β → γ) :
    ∀ (l1 : List α) (l2 : List β),
      List.zipWith g l1 (List.zipWith h l1 l2) = List.zipWith (fun a b => g a (h a b)) l1 l2
  | [], _ => rfl
  | _ :: _, [] => rfl
  | a :: as, b :: bs => by
    simp only [List.zipWith]
    rw [zipWith_zipWith_same g h as bs]

lemma zipWith_ext {α β γ : Type} (g g' : α → β → γ) (hg : ∀ a b, g a b = g' a b) :
    ∀ (l1 : List α) (l2 : List β), List.zipWith g l1 l2 = List.zipWith g' l1 l2
  | [], _ => rfl
  | _ :: _, [] => rfl
  | a :: as, b :: bs => by
    simp only [List.zipWith]
    rw [hg a b, zipWith_ext g g' hg as bs]

lemma zipWith3_ext {α β γ δ : Type} (g g' : α → β → γ → δ)
    (hg : ∀ a b c, g a b c = g' a b c) :
    ∀ (l1 : List α) (l2 : List β) (l3 : List γ), zipWith3 g l1 l2 l3 = zipWith3 g' l1 l2 l3
  | [], l2, l3 => by cases l2 <;> cases l3 <;> rfl
  | _ :: _, [], l3 => by cases l3 <;> rfl
  | _ :: _, _ :: _, [] => rfl
  | a :: as, b :: bs, c :: cs => by
    simp only [zipWith3]
    rw [hg a b c, zipWith3_ext g g' hg as bs cs]

lemma zipWith_map_zipWith3 {α β γ δ ε : Type} (k : α → δ → ε) (m : γ → δ) (g : β → β → γ) :
    ∀ (xs : List α) (ys zs : List β),
      List.zipWith k xs ((List.zipWith g ys zs).map m) =
        zipWith3 (fun x y z => k x (m (g y z))) xs ys zs
  | [], ys, zs => by cases ys <;> cases zs <;> rfl
  | x :: xs, [], zs => by cases zs <;> rfl
  | x :: xs, y :: ys, [] => rfl
  | x :: xs, y :: ys, z :: zs => by
    simp only [List.zipWith, List.map, zipWith3]
    rw [zipWith_map_zipWith3 k m g xs ys zs]

/-! ### Characterizations of the common loop -/

/-- Incremental mode: the in-place loop starting at index `pre.length` over a
population `pre ++ pop` replaces each slot of `pop` with the better of the
evaluated candidate and the incumbent, and each candidate is computed from the
slot's pre-epoch member (earlier in-place replacements never feed later
candidates, since slot `idx` is only read at iteration `idx`). -/
lemma stdLoop_incremental_eq {δ : Type} (mm : Bool) (f : List ℚ → ℚ)
    (cand : List ℚ → δ → List ℚ) :
    ∀ (ds : List δ) (pre pop : List Solution) (pn : List (List ℚ)),
      ds.length = pop.length →
      stdLoop mm f .incremental cand (pre ++ pop) pn pre.length ds =
        (pre ++ List.zipWith (fun (o : Solution) d =>
            get_better_solution mm ⟨cand o.pos d, f (cand o.pos d)⟩ o) pop ds,
         pn ++ List.zipWith (fun (o : Solution) d => cand o.pos d) pop ds) := by
  intro ds
  induction ds with
  | nil =>
    intro pre pop pn h
    cases pop with
    | nil => simp [stdLoop]
    | cons o os => simp at h
  | cons d ds ih =>
    intro pre pop pn h
    cases pop with
    | nil => simp at h
    | cons o os =>
      simp only [stdLoop, getD_append_length, set_append_length]
      have hl : pre.length + 1 = (pre ++ [get_better_solution mm
          ⟨cand o.pos d, f (cand o.pos d)⟩ o]).length := by simp
      have hp : pre ++ get_better_solution mm ⟨cand o.pos d, f (cand o.pos d)⟩ o :: os =
          (pre ++ [get_better_solution mm ⟨cand o.pos d, f (cand o.pos d)⟩ o]) ++ os := by
        simp
      rw [hl, hp, ih _ os (pn ++ [cand o.pos d]) (by simpa using h)]
      simp [List.append_assoc]

/-- Batch mode: the loop leaves the population untouched and appends one
candidate per member, each computed from the pre-epoch member at its index. -/
lemma stdLoop_batch_eq {δ : Type} (mm : Bool) (f : List ℚ → ℚ)
    (cand : List ℚ → δ → List ℚ) :
    ∀ (ds : List δ) (pre pop : List Solution) (pn : List (List ℚ)),
      ds.length = pop.length →
      stdLoop mm f .batch cand (pre ++ pop) pn pre.length ds =
        (pre ++ pop, pn ++ List.zipWith (fun (o : Solution) d => cand o.pos d) pop ds) := by
  intro ds
  induction ds with
  | nil =>
    intro pre pop pn h
    cases pop with
    | nil => simp [stdLoop]
    | cons o os => simp at h
  | cons d ds ih =>
    intro pre pop pn h
    cases pop with
    | nil => simp at h
    | cons o os =>
      simp only [stdLoop, getD_append_length]
      have hl : pre.length + 1 = (pre ++ [o]).length := by simp
      have hp : pre ++ o :: os = (pre ++ [o]) ++ os := by simp
      rw [hp, hl, ih _ os (pn ++ [cand o.pos d]) (by simpa using h)]
      simp [List.append_assoc]

lemma stdLoop_length_fst {δ : Type} (mm : Bool) (f : List ℚ → ℚ) (mode : EvalMode)
    (cand : List ℚ → δ → List ℚ) :
    ∀ (ds : List δ) (pop : List Solution) (pn : List (List ℚ)) (idx : ℕ),
      (stdLoop mm f mode cand pop pn idx ds).1.length = pop.length := by
  intro ds
  induction ds with
  | nil => intro pop pn idx; simp [stdLoop]
  | cons d ds ih =>
    intro pop pn idx
    cases mode <;> simp [stdLoop, ih, List.length_set]

lemma modeMerge_length (mm : Bool) (f : List ℚ → ℚ) (mode : EvalMode)
    (pop : List Solution) (pn : List (List ℚ)) :
    (modeMerge mm f mode pop pn).length = pop.length := by
  cases mode <;> simp [modeMerge, length_greedy]

lemma modeMerge_bounds {Q : List ℚ → Prop} {mm : Bool} {f : List ℚ → ℚ} {mode : EvalMode}
    {pop : List Solution} {pn : List (List ℚ)}
    (hpop : ∀ y ∈ pop, Q y.pos) (hpn : ∀ p ∈ pn, Q p) :
    ∀ y ∈ modeMerge mm f mode pop pn, Q y.pos := by
  cases mode with
  | incremental => exact hpop
  | batch =>
    intro y hy
    rcases mem_greedy hy with h1 | h1
    · exact hpop y h1
    · rcases List.mem_map.mp h1 with ⟨p, hp, rfl⟩
      exact hpn p hp

lemma stdLoop_bounds {δ : Type} {Q : List ℚ → Prop} (mm : Bool) (f : List ℚ → ℚ)
    (mode : EvalMode) (cand : List ℚ → δ → List ℚ) (hc : ∀ P d, Q (cand P d)) :
    ∀ (ds : List δ) (pop : List Solution) (pn : List (List ℚ)) (idx : ℕ),
      idx + ds.length ≤ pop.length →
      (∀ y ∈ pop, Q y.pos) → (∀ p ∈ pn, Q p) →
      (∀ y ∈ (stdLoop mm f mode cand pop pn idx ds).1, Q y.pos) ∧
      (∀ p ∈ (stdLoop mm f mode cand pop pn idx ds).2, Q p) := by
  intro ds
  induction ds with
  | nil =>
    intro pop pn idx _ hpop hpn
    exact ⟨hpop, hpn⟩
  | cons d ds ih =>
    intro pop pn idx hidx hpop hpn
    simp only [List.length_cons] at hidx
    have hlt : idx < pop.length := by omega
    have hold : Q (pop.getD idx default).pos := hpop _ (getD_mem hlt)
    cases mode with
    | incremental =>
      simp only [stdLoop]
      apply ih
      · simpa [List.length_set] using (by omega : idx + 1 + ds.length ≤ pop.length)
      · intro y hy
        rcases List.mem_or_eq_of_mem_set hy with h1 | h1
        · exact hpop y h1
        · subst h1
          rcases get_better_solution_cases mm
              ⟨cand (pop.getD idx default).pos d, f (cand (pop.getD idx default).pos d)⟩
              (pop.getD idx default) with h2 | h2 <;> rw [h2]
          · exact hc _ _
          · exact hold
      · intro p hp
        rcases List.mem_append.mp hp with h1 | h1
        · exact hpn p h1
        · simp only [List.mem_singleton] at h1
          subst h1
          exact hc _ _
    | batch =>
      simp only [stdLoop]
      apply ih
      · omega
      · exact hpop
      · intro p hp
        rcases List.mem_append.mp hp with h1 | h1
        · exact hpn p h1
        · simp only [List.mem_singleton] at h1
          subst h1
          exact hc _ _

/-! ### Lemmas about the hybrid loops -/

lemma mLoop_length_fst (mm : Bool) (f : List ℚ → ℚ) (amend : List ℚ → List ℚ)
    (mode : EvalMode) (a : ℚ) (gB L1 L2 L3 : List ℚ) :
    ∀ (ds : List MDraws) (pop : List Solution) (pn : List (List ℚ)) (idx : ℕ),
      (mLoop mm f amend mode a gB L1 L2 L3 pop pn idx ds).1.length = pop.length := by
  intro ds
  induction ds with
  | nil => intro pop pn idx; simp [mLoop]
  | cons d ds ih =>
    intro pop pn idx
    simp only [mLoop]
    by_cases hp : d.p < 1/2
    · rw [if_pos hp, ih, modeMerge_length]
    · rw [if_neg hp]
      cases mode <;> simp [ih, modeMerge_length, List.length_set]

lemma oLoop_length_fst (mm : Bool) (f : List ℚ → ℚ) (amend : List ℚ → List ℚ)
    (rexp rcos : ℚ → ℚ) (rpi : ℚ) (mode : EvalMode) (a : ℚ) (gB L1 L2 L3 : List ℚ) :
    ∀ (ds : List ODraws) (pop : List Solution) (pn : List (List ℚ)) (idx : ℕ),
      (oLoop mm f amend rexp rcos rpi mode a gB L1 L2 L3 pop pn idx ds).1.length = pop.length := by
  intro ds
  induction ds with
  | nil => intro pop pn idx; simp [oLoop]
  | cons d ds ih =>
    intro pop pn idx
    simp only [oLoop]
    by_cases hp : d.p < 1/2
    · rw [if_pos hp, ih, modeMerge_length]
    · rw [if_neg hp]
      cases mode <;> simp [ih, modeMerge_length, List.length_set]

lemma mLoop_bounds {Q : List ℚ → Prop} (mm : Bool) (f : List ℚ → ℚ)
    (amend : List ℚ → List ℚ) (mode : EvalMode) (a : ℚ) (gB L1 L2 L3 : List ℚ)
    (hamend : ∀ p, Q (amend p)) :
    ∀ (ds : List MDraws) (pop : List Solution) (pn : List (List ℚ)) (idx : ℕ),
      idx + ds.length ≤ pop.length →
      (∀ y ∈ pop, Q y.pos) → (∀ p ∈ pn, Q p) →
      ∀ y ∈ (mLoop mm f amend mode a gB L1 L2 L3 pop pn idx ds).1, Q y.pos := by
  intro ds
  induction ds with
  | nil => intro pop pn idx _ hpop _; exact hpop
  | cons d ds ih =>
    intro pop pn idx hidx hpop hpn
    simp only [List.length_cons] at hidx
    have hlt : idx < pop.length := by omega
    have hold : Q (pop.getD idx default).pos := hpop _ (getD_mem hlt)
    simp only [mLoop]
    by_cases hp : d.p < 1/2
    · rw [if_pos hp]
      apply ih
      · rw [modeMerge_length]; omega
      · exact modeMerge_bounds hpop hpn
      · exact hpn
    · rw [if_neg hp]
      have hsetQ : ∀ y ∈ pop.set idx (get_better_solution mm
          ⟨amend (mPosNew a gB L1 L2 L3 (pop.getD idx default).pos d),
            f (amend (mPosNew a gB L1 L2 L3 (pop.getD idx default).pos d))⟩
          (pop.getD idx default)), Q y.pos := by
        intro y hy
        rcases List.mem_or_eq_of_mem_set hy with h1 | h1
        · exact hpop y h1
        · subst h1
          rcases get_better_solution_cases mm
              ⟨amend (mPosNew a gB L1 L2 L3 (pop.getD idx default).pos d),
                f (amend (mPosNew a gB L1 L2 L3 (pop.getD idx default).pos d))⟩
              (pop.getD idx default) with h2 | h2 <;> rw [h2]
          · exact hamend _
          · exact hold
      have hpn1 : ∀ p ∈ pn ++ [amend (mPosNew a gB L1 L2 L3 (pop.getD idx default).pos d)],
          Q p := by
        intro p hp1
        rcases List.mem_append.mp hp1 with h1 | h1
        · exact hpn p h1
        · simp only [List.mem_singleton] at h1
          subst h1
          exact hamend _
      cases mode with
      | incremental =>
        apply ih
        · rw [modeMerge_length, List.length_set]; omega
        · exact modeMerge_bounds hsetQ hpn1
        · exact hpn1
      | batch =>
        apply ih
        · rw [modeMerge_length]
          show idx + 1 + ds.length ≤ pop.length
          omega
        · exact modeMerge_bounds hpop hpn1
        · exact hpn1

lemma oLoop_bounds {Q : List ℚ → Prop} (mm : Bool) (f : List ℚ → ℚ)
    (amend : List ℚ → List ℚ) (rexp rcos : ℚ → ℚ) (rpi : ℚ) (mode : EvalMode)
    (a : ℚ) (gB L1 L2 L3 : List ℚ) (hamend : ∀ p, Q (amend p)) :
    ∀ (ds : List ODraws) (pop : List Solution) (pn : List (List ℚ)) (idx : ℕ),
      idx + ds.length ≤ pop.length →
      (∀ y ∈ pop, Q y.pos) → (∀ p ∈ pn, Q p) →
      ∀ y ∈ (oLoop mm f amend rexp rcos rpi mode a gB L1 L2 L3 pop pn idx ds).1, Q y.pos := by
  intro ds
  induction ds with
  | nil => intro pop pn idx _ hpop _; exact hpop
  | cons d ds ih =>
    intro pop pn idx hidx hpop hpn
    simp only [List.length_cons] at hidx
    have hlt : idx < pop.length := by omega
    have hold : Q (pop.getD idx default).pos := hpop _ (getD_mem hlt)
    simp only [oLoop]
    by_cases hp : d.p < 1/2
    · rw [if_pos hp]
      apply ih
      · rw [modeMerge_length]; omega
      · exact modeMerge_bounds hpop hpn
      · exact hpn
    · rw [if_neg hp]
      have hsetQ : ∀ y ∈ pop.set idx (get_better_solution mm
          ⟨amend (oPosNew rexp rcos rpi a gB L1 L2 L3 (pop.getD idx default).pos d),
            f (amend (oPosNew rexp rcos rpi a gB L1 L2 L3 (pop.getD idx default).pos d))⟩
          (pop.getD idx default)), Q y.pos := by
        intro y hy
        rcases List.mem_or_eq_of_mem_set hy with h1 | h1
        · exact hpop y h1
        · subst h1
          rcases get_better_solution_cases mm
              ⟨amend (oPosNew rexp rcos rpi a gB L1 L2 L3 (pop.getD idx default).pos d),
                f (amend (oPosNew rexp rcos rpi a gB L1 L2 L3 (pop.getD idx default).pos d))⟩
              (pop.getD idx default) with h2 | h2 <;> rw [h2]
          · exact hamend _
          · exact hold
      have hpn1 : ∀ p ∈ pn ++
          [amend (oPosNew rexp rcos rpi a gB L1 L2 L3 (pop.getD idx default).pos d)], Q p := by
        intro p hp1
        rcases List.mem_append.mp hp1 with h1 | h1
        · exact hpn p h1
        · simp only [List.mem_singleton] at h1
          subst h1
          exact hamend _
      cases mode with
      | incremental =>
        apply ih
        · rw [modeMerge_length, List.length_set]; omega
        · exact modeMerge_bounds hsetQ hpn1
        · exact hpn1
      | batch =>
        apply ih
        · rw [modeMerge_length]
          show idx + 1 + ds.length ≤ pop.length
          omega
        · exact modeMerge_bounds hpop hpn1
        · exact hpn1

lemma mLoop_skip_step (mm : Bool) (f : List ℚ → ℚ) (amend : List ℚ → List ℚ)
    (a : ℚ) (gB L1 L2 L3 : List ℚ) (pop : List Solution) (pn : List (List ℚ))
    (idx : ℕ) (d : MDraws) (ds : List MDraws) (hp : d.p < 1/2) :
    mLoop mm f amend .incremental a gB L1 L2 L3 pop pn idx (d :: ds) =
      mLoop mm f amend .incremental a gB L1 L2 L3 pop pn (idx + 1) ds := by
  simp only [mLoop, modeMerge]
  rw [if_pos hp]

lemma oLoop_skip_step (mm : Bool) (f : List ℚ → ℚ) (amend : List ℚ → List ℚ)
    (rexp rcos : ℚ → ℚ) (rpi : ℚ) (a : ℚ) (gB L1 L2 L3 : List ℚ)
    (pop : List Solution) (pn : List (List ℚ)) (idx : ℕ) (d : ODraws)
    (ds : List ODraws) (hp : d.p < 1/2) :
    oLoop mm f amend rexp rcos rpi .incremental a gB L1 L2 L3 pop pn idx (d :: ds) =
      oLoop mm f amend rexp rcos rpi .incremental a gB L1 L2 L3 pop pn (idx + 1) ds := by
  simp only [oLoop, modeMerge]
  rw [if_pos hp]

lemma mLoop_allSkip (mm : Bool) (f : List ℚ → ℚ) (amend : List ℚ → List ℚ)
    (a : ℚ) (gB L1 L2 L3 : List ℚ) :
    ∀ (ds : List MDraws) (pop : List Solution) (pn : List (List ℚ)) (idx : ℕ),
      (∀ d ∈ ds, d.p < 1/2) →
      mLoop mm f amend .incremental a gB L1 L2 L3 pop pn idx ds = (pop, pn) := by
  intro ds
  induction ds with
  | nil => intro pop pn idx _; rfl
  | cons d ds ih =>
    intro pop pn idx hall
    rw [mLoop_skip_step mm f amend a gB L1 L2 L3 pop pn idx d ds (hall d (by simp))]
    exact ih pop pn (idx + 1) (fun x hx => hall x (List.mem_cons_of_mem d hx))

lemma oLoop_allSkip (mm : Bool) (f : List ℚ → ℚ) (amend : List ℚ → List ℚ)
    (rexp rcos : ℚ → ℚ) (rpi : ℚ) (a : ℚ) (gB L1 L2 L3 : List ℚ) :
    ∀ (ds : List ODraws) (pop : List Solution) (pn : List (List ℚ)) (idx : ℕ),
      (∀ d ∈ ds, d.p < 1/2) →
      oLoop mm f amend rexp rcos rpi .incremental a gB L1 L2 L3 pop pn idx ds = (pop, pn) := by
  intro ds
  induction ds with
  | nil => intro pop pn idx _; rfl
  | cons d ds ih =>
    intro pop pn idx hall
    rw [oLoop_skip_step mm f amend rexp rcos rpi a gB L1 L2 L3 pop pn idx d ds
      (hall d (by simp))]
    exact ih pop pn (idx + 1) (fun x hx => hall x (List.mem_cons_of_mem d hx))

lemma length_strim (mm : Bool) (l : List Solution) (n : ℕ) :
    (get_sorted_strim_population mm l n).length = min n l.length := by
  simp [get_sorted_strim_population, List.length_take, length_sortSol]

lemma rwPopPhase_length (mm : Bool) (f : List ℚ → ℚ) (amend : List ℚ → List ℚ)
    (mode : EvalMode) (b : ℚ) (leaders : List Solution) (G : List ℚ)
    (pop : List Solution) (draws : List RWDraws) :
    (rwPopPhase mm f amend mode b leaders G pop draws).length = pop.length := by
  simp [rwPopPhase, modeMerge_length, stdLoop_length_fst]

/-! ## Claim theorems -/

/-- C10: none of the four `evolve` methods writes the global best: whenever a
call returns (does not raise), the global-best component of the state is
exactly the one it was called with — `g_best` is only read as an attractor. -/
theorem C10_gbest_frame (mm : Bool) (f : List ℚ → ℚ) (amend : List ℚ → List ℚ)
    (rexp rcos : ℚ → ℚ) (rpi : ℚ) (mode : EvalMode) (popSize t T : ℕ)
    (dbg : List BGDraws) (cauchy : List (List ℚ)) (drw : List RWDraws)
    (dm : List MDraws) (dod : List ODraws) (s : OptState) :
    ((baseGWO_evolve mm f amend mode t T dbg s).elim True fun s1 => s1.gBest = s.gBest) ∧
    ((rw_evolve mm f amend mode popSize t T cauchy drw s).elim True
      fun s1 => s1.gBest = s.gBest) ∧
    ((gwoWoaM_evolve mm f amend mode t T dm s).elim True fun s1 => s1.gBest = s.gBest) ∧
    ((gwoWoaO_evolve mm f amend rexp rcos rpi mode t T dod s).elim True
      fun s1 => s1.gBest = s.gBest) := by
  refine ⟨?_, ?_, ?_, ?_⟩
  · cases h : pyDiv (2 * (t : ℚ)) ((T : ℚ) - 1) <;> simp [baseGWO_evolve, h]
  · cases h : pyDiv (2 * (t : ℚ)) ((T : ℚ) - 1) <;> simp [rw_evolve, h]
  · cases h : pyDiv (2 * (t : ℚ)) ((T : ℚ) - 1) <;>
      cases h2 : pyDiv (-1) ((T : ℚ)) <;> simp [gwoWoaM_evolve, h, h2]
  · cases h : pyDiv ((t : ℚ)) (2 * (T : ℚ)) <;> simp [gwoWoaO_evolve, gwoWoaO_a, h]

/-- C1: for every strategy and both evaluation modes, if the starting
population has length `pop_size` then so does the population of any state an
`evolve` call returns. -/
theorem C1_population_size (mm : Bool) (f : List ℚ → ℚ) (amend : List ℚ → List ℚ)
    (rexp rcos : ℚ → ℚ) (rpi : ℚ) (mode : EvalMode) (popSize t T : ℕ)
    (dbg : List BGDraws) (cauchy : List (List ℚ)) (drw : List RWDraws)
    (dm : List MDraws) (dod : List ODraws) (s : OptState)
    (hlen : s.pop.length = popSize) :
    ((baseGWO_evolve mm f amend mode t T dbg s).elim True
      fun s1 => s1.pop.length = popSize) ∧
    ((rw_evolve mm f amend mode popSize t T cauchy drw s).elim True
      fun s1 => s1.pop.length = popSize) ∧
    ((gwoWoaM_evolve mm f amend mode t T dm s).elim True
      fun s1 => s1.pop.length = popSize) ∧
    ((gwoWoaO_evolve mm f amend rexp rcos rpi mode t T dod s).elim True
      fun s1 => s1.pop.length = popSize) := by
  refine ⟨?_, ?_, ?_, ?_⟩
  · cases h : pyDiv (2 * (t : ℚ)) ((T : ℚ) - 1) with
    | none => simp [baseGWO_evolve, h]
    | some q =>
      simp [baseGWO_evolve, h, modeMerge_length, stdLoop_length_fst, hlen]
  · cases h : pyDiv (2 * (t : ℚ)) ((T : ℚ) - 1) with
    | none => simp [rw_evolve, h]
    | some q =>
      simp only [rw_evolve, h, Option.bind_some, Option.some_bind, Option.elim_some,
        bind, Option.bind]
      rw [length_strim, List.length_append, rwPopPhase_length, hlen]
      omega
  · cases h : pyDiv (2 * (t : ℚ)) ((T : ℚ) - 1) <;>
      cases h2 : pyDiv (-1) ((T : ℚ)) <;>
      simp [gwoWoaM_evolve, h, h2, mLoop_length_fst, hlen]
  · cases h : pyDiv ((t : ℚ)) (2 * (T : ℚ)) <;>
      simp [gwoWoaO_evolve, gwoWoaO_a, h, oLoop_length_fst, hlen]

/-! ### Concrete sample inputs used by the witnesses -/

/-- A small population of three one-dimensional solutions. -/
def samplePop : List Solution := [⟨[0], 0⟩, ⟨[1], 1⟩, ⟨[2], 4⟩]

/-- A sample optimizer state over `samplePop`. -/
def sampleState : OptState := ⟨samplePop, ⟨[0], 0⟩⟩

/-- A sample objective: the coordinate sum. -/
def f0 : List ℚ → ℚ := fun p => p.sum

/-- Uniform draws of one half each. -/
def dBG0 : BGDraws := ⟨1/2, 1/2, 1/2, 1/2, 1/2, 1/2⟩

/-- Uniform draws of one half each. -/
def dRW0 : RWDraws := ⟨1/2, 1/2, 1/2, 1/2, 1/2, 1/2⟩

/-- Hybrid-M draws: exploitation branch (`p >= 0.5`), all uniforms one half. -/
def dM0 : MDraws := ⟨1/2, 1/2, 1/2, 1/2, 1/2, 1/2, 1/2, 1/2, 1/2, 1/2, [0]⟩

/-- Hybrid-O draws: exploitation branch (`p >= 0.5`), all uniforms one half. -/
def dO0 : ODraws := ⟨1/2, 1/2, 1/2, 1/2, 1/2, 1/2, 1/2, 1/2, 1/2, 1/2, 1/2, 1/2, [0]⟩

/-- Witness for C1 at a concrete instance. -/
theorem C1_population_size_witness :
    sampleState.pop.length = 3 ∧
    (((baseGWO_evolve true f0 id .incremental 0 2 [dBG0, dBG0, dBG0] sampleState).elim True
      fun s1 => s1.pop.length = 3) ∧
    ((rw_evolve true f0 id .incremental 3 0 2 [[0], [0], [0]] [dRW0, dRW0, dRW0]
        sampleState).elim True fun s1 => s1.pop.length = 3) ∧
    ((gwoWoaM_evolve true f0 id .incremental 0 2 [dM0, dM0, dM0] sampleState).elim True
      fun s1 => s1.pop.length = 3) ∧
    ((gwoWoaO_evolve true f0 id id id 0 .incremental 0 2 [dO0, dO0, dO0] sampleState).elim True
      fun s1 => s1.pop.length = 3)) :=
  ⟨rfl, C1_population_size true f0 id id id 0 .incremental 3 0 2 [dBG0, dBG0, dBG0]
    [[0], [0], [0]] [dRW0, dRW0, dRW0] [dM0, dM0, dM0] [dO0, dO0, dO0] sampleState rfl⟩

/-- C2: with a configured total of `epoch_total = 1` — a value the validator
accepts — the decay coefficient `2 - 2 * t / (T - 1)` divides by zero, so
`BaseGWO.evolve`, `RW_GWO.evolve` and `GWO_WOA_M.evolve` all raise
(`= none`) instead of guarding the division; only `GWO_WOA_O.evolve`, whose
schedule divides by `2 * T`, completes. -/
theorem C2_epoch_one_raises (mm : Bool) (f : List ℚ → ℚ) (amend : List ℚ → List ℚ)
    (rexp rcos : ℚ → ℚ) (rpi : ℚ) (mode : EvalMode) (popSize t : ℕ)
    (dbg : List BGDraws) (cauchy : List (List ℚ)) (drw : List RWDraws)
    (dm : List MDraws) (dod : List ODraws) (s : OptState) :
    baseGWO_evolve mm f amend mode t 1 dbg s = none ∧
    rw_evolve mm f amend mode popSize t 1 cauchy drw s = none ∧
    gwoWoaM_evolve mm f amend mode t 1 dm s = none ∧
    (gwoWoaO_evolve mm f amend rexp rcos rpi mode t 1 dod s).isSome = true := by
  refine ⟨?_, ?_, ?_, ?_⟩
  · simp [baseGWO_evolve, pyDiv]
  · simp [rw_evolve, pyDiv]
  · simp [gwoWoaM_evolve, pyDiv]
  · norm_num [gwoWoaO_evolve, gwoWoaO_a, pyDiv]

lemma bgCand_eq_spec (amend : List ℚ → List ℚ) (a : ℚ) (L1 L2 L3 P : List ℚ) (d : BGDraws) :
    bgCand amend a L1 L2 L3 P d = amend (specGwoPosition a L1 L2 L3 P d) := rfl

/-- C3: for `T > 1`, `BaseGWO.evolve` computes exactly the §4.6 update: with
`a = 2 - 2 * t / (T - 1)` and the three leaders the top-3 of the pre-epoch
population, every member's candidate is the boundary-repaired elementwise mean
of `X_i = L_i - A_i * |C_i * L_i - P|` (`A_i = a * (2 * U - 1)`, `C_i = 2 * U`)
computed from the member's pre-epoch position, and the candidates are
evaluated and merged per the active evaluation mode. -/
theorem C3_basegwo_update (mm : Bool) (f : List ℚ → ℚ) (amend : List ℚ → List ℚ)
    (mode : EvalMode) (t T : ℕ) (draws : List BGDraws) (s : OptState)
    (hT : 1 < T) (hd : draws.length = s.pop.length) :
    baseGWO_evolve mm f amend mode t T draws s =
      some (specBaseGWO_evolve mm f amend mode t T draws s) := by
  have hTq : ((T : ℚ) - 1) ≠ 0 := by
    have h1 : (1 : ℚ) < (T : ℚ) := by exact_mod_cast hT
    intro hc
    linarith
  have hdiv : pyDiv (2 * (t : ℚ)) ((T : ℚ) - 1) =
      some (2 * (t : ℚ) / ((T : ℚ) - 1)) := by
    simp [pyDiv, hTq]
  cases mode with
  | incremental =>
    simp only [baseGWO_evolve, hdiv, Option.map_some']
    have hloop := stdLoop_incremental_eq mm f
      (bgCand amend (2 - 2 * (t : ℚ) / ((T : ℚ) - 1))
        (((get_special_solutions mm s.pop 3).2.1.getD 0 default).pos)
        (((get_special_solutions mm s.pop 3).2.1.getD 1 default).pos)
        (((get_special_solutions mm s.pop 3).2.1.getD 2 default).pos))
      draws [] s.pop [] hd
    simp only [List.nil_append, List.length_nil] at hloop
    rw [hloop]
    simp only [specBaseGWO_evolve, modeMerge]
    rw [zipWith_zipWith_same]
    rfl
  | batch =>
    simp only [baseGWO_evolve, hdiv, Option.map_some']
    have hloop := stdLoop_batch_eq mm f
      (bgCand amend (2 - 2 * (t : ℚ) / ((T : ℚ) - 1))
        (((get_special_solutions mm s.pop 3).2.1.getD 0 default).pos)
        (((get_special_solutions mm s.pop 3).2.1.getD 1 default).pos)
        (((get_special_solutions mm s.pop 3).2.1.getD 2 default).pos))
      draws [] s.pop [] hd
    simp only [List.nil_append, List.length_nil] at hloop
    rw [hloop]
    simp only [specBaseGWO_evolve, modeMerge]
    rfl

lemma rwLeaderPhase_eq (mm : Bool) (f : List ℚ → ℚ) (amend : List ℚ → List ℚ)
    (mode : EvalMode) (a : ℚ) (L0 : List Solution) (cauchy : List (List ℚ))
    (hc : cauchy.length = L0.length) :
    rwLeaderPhase mm f amend mode a L0 cauchy = specRwLeaderPhase mm f amend mode a L0 cauchy := by
  cases mode with
  | incremental =>
    have hloop := stdLoop_incremental_eq mm f (rwLeaderCand amend a) cauchy [] L0 [] hc
    simp only [List.nil_append, List.length_nil] at hloop
    simp only [rwLeaderPhase, hloop, modeMerge, specRwLeaderPhase]
    rw [zipWith_zipWith_same]
    rfl
  | batch =>
    have hloop := stdLoop_batch_eq mm f (rwLeaderCand amend a) cauchy [] L0 [] hc
    simp only [List.nil_append, List.length_nil] at hloop
    simp only [rwLeaderPhase, hloop, modeMerge, specRwLeaderPhase]
    rfl

lemma rwPopPhase_eq (mm : Bool) (f : List ℚ → ℚ) (amend : List ℚ → List ℚ)
    (mode : EvalMode) (b : ℚ) (leaders : List Solution) (G : List ℚ)
    (pop : List Solution) (draws : List RWDraws) (hd : draws.length = pop.length) :
    rwPopPhase mm f amend mode b leaders G pop draws =
      specRwPopPhase mm f amend mode b leaders G pop draws := by
  cases mode with
  | incremental =>
    have hloop := stdLoop_incremental_eq mm f
      (rwCand amend b (leaders.getD 0 default).pos (leaders.getD 1 default).pos
        (leaders.getD 2 default).pos G) draws [] pop [] hd
    simp only [List.nil_append, List.length_nil] at hloop
    simp only [rwPopPhase, hloop, modeMerge, specRwPopPhase]
    rw [zipWith_zipWith_same]
    rfl
  | batch =>
    have hloop := stdLoop_batch_eq mm f
      (rwCand amend b (leaders.getD 0 default).pos (leaders.getD 1 default).pos
        (leaders.getD 2 default).pos G) draws [] pop [] hd
    simp only [List.nil_append, List.length_nil] at hloop
    simp only [rwPopPhase, hloop, modeMerge, specRwPopPhase]
    rfl

/-- C5: for `T > 1` and a population of at least 3 members, `RW_GWO.evolve`
performs exactly the spec's three phases in order: (1) each of the 3 leaders
takes a Cauchy random-walk step scaled by `a`, is repaired and greedily merged
into the leader set; (2) every member is updated by the 3-leader average
`X_i = leaders[i] - mu_i * |c_i * g_best - P|` (the distance term uses the
global best, not the leader), repaired and evaluated/replaced per mode; (3)
the final population is the best `pop_size` members of the union of the
updated population and the refreshed leaders. -/
theorem C5_rwgwo_update (mm : Bool) (f : List ℚ → ℚ) (amend : List ℚ → List ℚ)
    (mode : EvalMode) (popSize t T : ℕ) (cauchy : List (List ℚ))
    (draws : List RWDraws) (s : OptState) (hT : 1 < T) (hpop : 3 ≤ s.pop.length)
    (hc : cauchy.length = 3) (hd : draws.length = s.pop.length) :
    rw_evolve mm f amend mode popSize t T cauchy draws s =
      some (specRW_evolve mm f amend mode popSize t T cauchy draws s) := by
  have hTq : ((T : ℚ) - 1) ≠ 0 := by
    have h1 : (1 : ℚ) < (T : ℚ) := by exact_mod_cast hT
    intro hcon
    linarith
  have hdiv : pyDiv (2 * (t : ℚ)) ((T : ℚ) - 1) =
      some (2 * (t : ℚ) / ((T : ℚ) - 1)) := by
    simp [pyDiv, hTq]
  have hlen0 : ((get_special_solutions mm s.pop 3).2.1).length = 3 := by
    simp [get_special_solutions, List.length_take, length_sortSol]
    omega
  have hc' : cauchy.length = ((get_special_solutions mm s.pop 3).2.1).length := by
    rw [hlen0, hc]
  simp only [rw_evolve, hdiv, Option.bind_some, Option.some_bind, bind, Option.bind]
  rw [rwLeaderPhase_eq mm f amend mode _ _ cauchy hc',
    rwPopPhase_eq mm f amend mode _ _ _ _ draws hd]
  rfl

/-- Witness for C5 at a concrete instance. -/
theorem C5_rwgwo_update_witness :
    (1 < 2 ∧ 3 ≤ sampleState.pop.length ∧
      ([[0], [0], [0]] : List (List ℚ)).length = 3 ∧
      ([dRW0, dRW0, dRW0] : List RWDraws).length = sampleState.pop.length) ∧
    rw_evolve true f0 id .incremental 3 0 2 [[0], [0], [0]] [dRW0, dRW0, dRW0] sampleState =
      some (specRW_evolve true f0 id .incremental 3 0 2 [[0], [0], [0]] [dRW0, dRW0, dRW0]
        sampleState) :=
  ⟨⟨by decide, by decide, by decide, by decide⟩,
    C5_rwgwo_update true f0 id .incremental 3 0 2 [[0], [0], [0]] [dRW0, dRW0, dRW0]
      sampleState (by decide) (by decide) (by decide) (by decide)⟩

/-- Draws refuting the claimed pairing of `C_i` with `L_i`: `p = 1` selects
the exploitation branch, `uC1 = 0` and `uC2 = 1` make `C1` and `C2` differ,
`uA1 = 1` makes `A1 = a`, and `uA2 = uA3 = 1/2` zero out `A2, A3`. -/
def dC6 : MDraws := ⟨1/2, 1/2, 1/2, 1, 1, 0, 1/2, 1, 1/2, 1/2, [0]⟩

/-- Counterexample for C6: at `a = 1`, leaders `[1], [0], [0]`, member `[0]`
and the draws `dC6`, the exploitation-branch position `GWO_WOA_M.evolve`
computes differs from the claimed `mean of X_i = L_i - A_i * |C_i * L_i - P|`
with `(A_i, C_i)` paired with `L_i`: the source pairs `C2` with `L1` and `C1`
with `L2`. -/
theorem C6_counterexample :
    mPosNew 1 [0] [1] [0] [0] [0] dC6 ≠
      specPairedExploit (1 * (2 * dC6.uA1 - 1)) (1 * (2 * dC6.uA2 - 1))
        (1 * (2 * dC6.uA3 - 1)) (2 * dC6.uC1) (2 * dC6.uC2) (2 * dC6.uC3)
        [1] [0] [0] [0] := by
  norm_num [mPosNew, dC6, specPairedExploit, gwoExploit3, encirclePos, mean3, zipWith3]

/-- C6 (amended): in `GWO_WOA_M.evolve`, for every loop index: when `p < 0.5`
and `|A| < 1` the new position equals
`g_best - A * |C * g_best - pop[idx]|`; when `p < 0.5` and `|A| >= 1` it
encircles the freshly created uniform-random solution instead of the global
best; and when `p >= 0.5` it equals the mean of the three `X_i`, where the
first two `C` coefficients are swapped relative to their leaders: `X1` uses
`C2` with `L1`, `X2` uses `C1` with `L2`, and `X3` uses `C3` with `L3`
(`A_i` pairs with `L_i` as claimed). -/
theorem C6_gwo_woa_m_branches (a : ℚ) (gB L1 L2 L3 P : List ℚ) (d : MDraws) :
    (d.p < 1/2 → |2 * a * d.r1 - a| < 1 →
      mPosNew a gB L1 L2 L3 P d =
        List.zipWith (fun g x => g - (2 * a * d.r1 - a) * |(2 * d.r2) * g - x|) gB P) ∧
    (d.p < 1/2 → 1 ≤ |2 * a * d.r1 - a| →
      mPosNew a gB L1 L2 L3 P d =
        List.zipWith (fun g x => g - (2 * a * d.r1 - a) * |(2 * d.r2) * g - x|) d.xRand P) ∧
    (1/2 ≤ d.p →
      mPosNew a gB L1 L2 L3 P d =
        mean3
          (List.zipWith (fun li xi => li - (a * (2 * d.uA1 - 1)) * |(2 * d.uC2) * li - xi|) L1 P)
          (List.zipWith (fun li xi => li - (a * (2 * d.uA2 - 1)) * |(2 * d.uC1) * li - xi|) L2 P)
          (List.zipWith (fun li xi => li - (a * (2 * d.uA3 - 1)) * |(2 * d.uC3) * li - xi|) L3 P)) := by
  refine ⟨?_, ?_, ?_⟩
  · intro hp hA
    simp only [mPosNew]
    rw [if_pos hp, if_pos hA]
    rfl
  · intro hp hA
    simp only [mPosNew]
    rw [if_pos hp, if_neg (not_lt.mpr hA)]
    rfl
  · intro hp
    simp only [mPosNew]
    rw [if_neg (not_lt.mpr hp)]
    rfl

/-- Exploration-branch draws for the hybrid witnesses: `p = 0`, `r1 = 1` so
`|A| = 1` at `a = 1`. -/
def dM1 : MDraws := ⟨1, 1/2, 1/2, 0, 1/2, 1/2, 1/2, 1/2, 1/2, 1/2, [5]⟩

/-- Encircling-branch draws for the hybrid witnesses: `p = 0`, `r1 = 1/2` so
`A = 0` at `a = 1`. -/
def dM2 : MDraws := ⟨1/2, 1/2, 1/2, 0, 1/2, 1/2, 1/2, 1/2, 1/2, 1/2, [5]⟩

/-- Witness for C6 at concrete instances of all three branches. -/
theorem C6_gwo_woa_m_branches_witness :
    (dM2.p < 1/2 ∧ |2 * 1 * dM2.r1 - 1| < 1 ∧
      mPosNew 1 [0] [1] [0] [0] [0] dM2 =
        List.zipWith (fun g x => g - (2 * 1 * dM2.r1 - 1) * |(2 * dM2.r2) * g - x|) [0] [0]) ∧
    (dM1.p < 1/2 ∧ 1 ≤ |2 * 1 * dM1.r1 - 1| ∧
      mPosNew 1 [0] [1] [0] [0] [0] dM1 =
        List.zipWith (fun g x => g - (2 * 1 * dM1.r1 - 1) * |(2 * dM1.r2) * g - x|)
          dM1.xRand [0]) ∧
    (1/2 ≤ dC6.p ∧
      mPosNew 1 [0] [1] [0] [0] [0] dC6 =
        mean3
          (List.zipWith (fun li xi => li - (1 * (2 * dC6.uA1 - 1)) * |(2 * dC6.uC2) * li - xi|)
            [1] [0])
          (List.zipWith (fun li xi => li - (1 * (2 * dC6.uA2 - 1)) * |(2 * dC6.uC1) * li - xi|)
            [0] [0])
          (List.zipWith (fun li xi => li - (1 * (2 * dC6.uA3 - 1)) * |(2 * dC6.uC3) * li - xi|)
            [0] [0])) :=
  ⟨⟨by norm_num [dM2], by norm_num [dM2],
      (C6_gwo_woa_m_branches 1 [0] [1] [0] [0] [0] dM2).1 (by norm_num [dM2])
        (by norm_num [dM2])⟩,
    ⟨by norm_num [dM1], by norm_num [dM1],
      (C6_gwo_woa_m_branches 1 [0] [1] [0] [0] [0] dM1).2.1 (by norm_num [dM1])
        (by norm_num [dM1])⟩,
    ⟨by norm_num [dC6],
      (C6_gwo_woa_m_branches 1 [0] [1] [0] [0] [0] dC6).2.2 (by norm_num [dC6])⟩⟩

/-- C7: in `GWO_WOA_O.evolve`, (a) the decay obeys `a = 2 * (1 - t / (2 * T))`
(never raising for `T >= 1`), equals 1 exactly at `t = T` and stays at least 1
for `t <= T`; (b) the `p < 0.5`, `|A| < 1` encircling step scales the distance
by the extra uniform `r3`; (c) the `p < 0.5`, `|A| >= 1` exploration step uses
the logarithmic-spiral position, which over `ℝ` with the true `exp`, `cos` and
`π` equals `x_rand - A * (w * exp(b * l) * cos(2 * pi * l)) * |C1 * L1 - P|`
elementwise. -/
theorem C7_gwo_woa_o_refinements (rexp rcos : ℚ → ℚ) (rpi a : ℚ)
    (gB L1 L2 L3 P : List ℚ) (d : ODraws) (t T : ℕ) (hT : 1 ≤ T) :
    (gwoWoaO_a t T = some (2 * (1 - (t : ℚ) / (2 * (T : ℚ)))) ∧
      (t ≤ T → 1 ≤ 2 * (1 - (t : ℚ) / (2 * (T : ℚ)))) ∧
      (2 * (1 - (t : ℚ) / (2 * (T : ℚ))) = 1 ↔ t = T)) ∧
    (d.p < 1/2 → |2 * a * d.r1 - a| < 1 →
      oPosNew rexp rcos rpi a gB L1 L2 L3 P d =
        List.zipWith (fun g x => g - (2 * a * d.r1 - a) * d.r3 * |(2 * d.r2) * g - x|) gB P) ∧
    (d.p < 1/2 → 1 ≤ |2 * a * d.r1 - a| →
      oPosNew rexp rcos rpi a gB L1 L2 L3 P d =
        exploreO rexp rcos rpi (2 * a * d.r1 - a) d.w 1 d.lr (2 * d.uC1) d.xRand L1 P) ∧
    (∀ (A w b l C1 : ℝ) (xR M1 Q : List ℝ),
      exploreO Real.exp Real.cos Real.pi A w b l C1 xR M1 Q =
        specSpiralPos Real.exp Real.cos Real.pi A w b l C1 xR M1 Q) := by
  have hTpos : (0 : ℚ) < (T : ℚ) := by exact_mod_cast Nat.lt_of_lt_of_le Nat.zero_lt_one hT
  have h2T : (0 : ℚ) < 2 * (T : ℚ) := by linarith
  refine ⟨⟨?_, ?_, ?_⟩, ?_, ?_, ?_⟩
  · simp [gwoWoaO_a, pyDiv, ne_of_gt h2T]
  · intro ht
    have htq : (t : ℚ) ≤ (T : ℚ) := by exact_mod_cast ht
    have hdle : (t : ℚ) / (2 * (T : ℚ)) ≤ 1/2 := by
      rw [div_le_iff₀ h2T]
      linarith
    linarith
  · constructor
    · intro h
      field_simp at h
      have hq : (t : ℚ) = (T : ℚ) := by linarith
      exact_mod_cast hq
    · intro h
      subst h
      field_simp
      ring
  · intro hp hA
    simp only [oPosNew]
    rw [if_pos hp, if_pos hA]
    exact zipWith_ext _ _ (fun g x => by ring) gB P
  · intro hp hA
    simp only [oPosNew]
    rw [if_pos hp, if_neg (not_lt.mpr hA)]
  · intro A w b l C1 xR M1 Q
    simp only [exploreO, specSpiralPos]
    rw [zipWith_map_zipWith3]
    exact zipWith3_ext _ _ (fun x y z => by ring) xR M1 Q

/-- Hybrid-O draws selecting the spiral exploration branch at `a = 1`:
`p = 0 < 0.5` and `r1 = 1` so `|A| = 1`. -/
def dO1 : ODraws := ⟨1, 1/2, 1/2, 1/2, 1/2, 0, 1/2, 1/2, 1/2, 1/2, 1/2, 1/2, [5]⟩

/-- Hybrid-O draws selecting the `r3`-scaled encircling branch at `a = 1`:
`p = 0 < 0.5` and `r1 = 1/2` so `A = 0`. -/
def dO2 : ODraws := ⟨1/2, 1/2, 1/2, 1/2, 1/2, 0, 1/2, 1/2, 1/2, 1/2, 1/2, 1/2, [5]⟩

/-- Witness for C7 at concrete instances. -/
theorem C7_gwo_woa_o_refinements_witness :
    ((1 : ℕ) ≤ 3) ∧
    gwoWoaO_a 3 3 = some (2 * (1 - (3 : ℚ) / (2 * ((3 : ℕ) : ℚ)))) ∧
    (2 * (1 - ((3 : ℕ) : ℚ) / (2 * ((3 : ℕ) : ℚ))) = 1 ↔ (3 : ℕ) = 3) ∧
    (dO2.p < 1/2 ∧ |2 * 1 * dO2.r1 - 1| < 1 ∧
      oPosNew id id 0 1 [0] [1] [0] [0] [0] dO2 =
        List.zipWith (fun g x => g - (2 * 1 * dO2.r1 - 1) * dO2.r3 * |(2 * dO2.r2) * g - x|)
          [0] [0]) ∧
    (dO1.p < 1/2 ∧ 1 ≤ |2 * 1 * dO1.r1 - 1| ∧
      oPosNew id id 0 1 [0] [1] [0] [0] [0] dO1 =
        exploreO id id 0 (2 * 1 * dO1.r1 - 1) dO1.w 1 dO1.lr (2 * dO1.uC1) dO1.xRand [1] [0]) ∧
    exploreO Real.exp Real.cos Real.pi 1 1 1 1 1 [1] [1] [1] =
      specSpiralPos Real.exp Real.cos Real.pi 1 1 1 1 1 [1] [1] [1] :=
  ⟨by decide,
    (C7_gwo_woa_o_refinements id id 0 1 [0] [1] [0] [0] [0] dO2 3 3 (by decide)).1.1,
    (C7_gwo_woa_o_refinements id id 0 1 [0] [1] [0] [0] [0] dO2 3 3 (by decide)).1.2.2,
    ⟨by norm_num [dO2], by norm_num [dO2],
      (C7_gwo_woa_o_refinements id id 0 1 [0] [1] [0] [0] [0] dO2 3 3 (by decide)).2.1
        (by norm_num [dO2]) (by norm_num [dO2])⟩,
    ⟨by norm_num [dO1], by norm_num [dO1],
      (C7_gwo_woa_o_refinements id id 0 1 [0] [1] [0] [0] [0] dO1 3 3 (by decide)).2.2.1
        (by norm_num [dO1]) (by norm_num [dO1])⟩,
    (C7_gwo_woa_o_refinements id id 0 1 [0] [1] [0] [0] [0] dO1 3 3 (by decide)).2.2.2
      1 1 1 1 1 [1] [1] [1]⟩

/-- The constant-zero objective: every candidate ties every incumbent. -/
def fzero : List ℚ → ℚ := fun _ => 0

/-- A population whose members all have fitness 0 (exact ties everywhere). -/
def tiePop : List Solution := [⟨[0], 0⟩, ⟨[1], 0⟩, ⟨[2], 0⟩]

/-- State over `tiePop`. -/
def tieState : OptState := ⟨tiePop, ⟨[0], 0⟩⟩

/-- An empty-population state (used by a witness). -/
def emptyState : OptState := ⟨[], ⟨[], 0⟩⟩

/-- Counterexample for C8: under the constant-zero objective every candidate
exactly ties its incumbent, yet the incremental `BaseGWO.evolve` replaces
every slot with the candidate (slot 0 becomes position `[1]`, not the
incumbent's `[0]`): the source passes the candidate as `get_better_solution`'s
first argument, and the stated contract returns the first argument on ties, so
ties favor the candidate, not the incumbent. -/
theorem C8_counterexample :
    baseGWO_evolve true fzero id .incremental 0 2 [dBG0, dBG0, dBG0] tieState =
      some ⟨[⟨[1], 0⟩, ⟨[1], 0⟩, ⟨[1], 0⟩], ⟨[0], 0⟩⟩ ∧
    fzero [1] = ((⟨[0], 0⟩ : Solution)).tar ∧ ([1] : List ℚ) ≠ [0] := by
  refine ⟨?_, rfl, by norm_num⟩
  have h1 : sortSol true tiePop = tiePop := by
    norm_num [sortSol, tiePop, insertSol, isBetterFit]
  norm_num [baseGWO_evolve, pyDiv, get_special_solutions, h1, tiePop, tieState, stdLoop,
    modeMerge, bgCand, encirclePos, mean3, zipWith3, get_better_solution, isBetterFit,
    fzero, dBG0, List.getD, List.set, OptState.mk.injEq]

/-- C8 (amended): in incremental mode the incumbent survives only when its
fitness is strictly better than the candidate's; on an exact fitness tie the
candidate replaces the incumbent, because `evolve` passes the freshly
evaluated candidate as `get_better_solution`'s first argument and the stated
contract returns the first argument on ties.  Stated for `BaseGWO` (the other
strategies call `get_better_solution` with the same argument order). -/
theorem C8_tie_replacement (mm : Bool) (f : List ℚ → ℚ) (amend : List ℚ → List ℚ)
    (t T : ℕ) (draws : List BGDraws) (s : OptState)
    (hT : 1 < T) (hd : draws.length = s.pop.length) :
    (∀ x : ℚ, isBetterFit mm x x = false) ∧
    (∀ c o : Solution, c.tar = o.tar → get_better_solution mm c o = c) ∧
    ((baseGWO_evolve mm f amend .incremental t T draws s).elim True fun s1 =>
      s1.pop = List.zipWith (fun (o : Solution) d =>
        if isBetterFit mm o.tar (f (bgCand amend (2 - 2 * (t : ℚ) / ((T : ℚ) - 1))
            (((get_special_solutions mm s.pop 3).2.1.getD 0 default).pos)
            (((get_special_solutions mm s.pop 3).2.1.getD 1 default).pos)
            (((get_special_solutions mm s.pop 3).2.1.getD 2 default).pos) o.pos d)) = true
        then o
        else ⟨bgCand amend (2 - 2 * (t : ℚ) / ((T : ℚ) - 1))
            (((get_special_solutions mm s.pop 3).2.1.getD 0 default).pos)
            (((get_special_solutions mm s.pop 3).2.1.getD 1 default).pos)
            (((get_special_solutions mm s.pop 3).2.1.getD 2 default).pos) o.pos d,
          f (bgCand amend (2 - 2 * (t : ℚ) / ((T : ℚ) - 1))
            (((get_special_solutions mm s.pop 3).2.1.getD 0 default).pos)
            (((get_special_solutions mm s.pop 3).2.1.getD 1 default).pos)
            (((get_special_solutions mm s.pop 3).2.1.getD 2 default).pos) o.pos d)⟩)
        s.pop draws) := by
  refine ⟨?_, ?_, ?_⟩
  · intro x
    cases mm <;> simp [isBetterFit]
  · intro c o h
    unfold get_better_solution
    rw [h]
    cases mm <;> simp [isBetterFit]
  · have hTq : ((T : ℚ) - 1) ≠ 0 := by
      have h1 : (1 : ℚ) < (T : ℚ) := by exact_mod_cast hT
      intro hc
      linarith
    have hdiv : pyDiv (2 * (t : ℚ)) ((T : ℚ) - 1) =
        some (2 * (t : ℚ) / ((T : ℚ) - 1)) := by
      simp [pyDiv, hTq]
    simp only [baseGWO_evolve, hdiv, Option.map_some', Option.elim_some]
    have hloop := stdLoop_incremental_eq mm f
      (bgCand amend (2 - 2 * (t : ℚ) / ((T : ℚ) - 1))
        (((get_special_solutions mm s.pop 3).2.1.getD 0 default).pos)
        (((get_special_solutions mm s.pop 3).2.1.getD 1 default).pos)
        (((get_special_solutions mm s.pop 3).2.1.getD 2 default).pos))
      draws [] s.pop [] hd
    simp only [List.nil_append, List.length_nil] at hloop
    rw [hloop]
    rfl

/-- Witness for C8 at a concrete instance. -/
theorem C8_tie_replacement_witness :
    ((1 : ℕ) < 2 ∧ ([] : List BGDraws).length = emptyState.pop.length) ∧
    ((∀ x : ℚ, isBetterFit true x x = false) ∧
    (∀ c o : Solution, c.tar = o.tar → get_better_solution true c o = c) ∧
    ((baseGWO_evolve true fzero id .incremental 0 2 [] emptyState).elim True fun s1 =>
      s1.pop = List.zipWith (fun (o : Solution) d =>
        if isBetterFit true o.tar (fzero (bgCand id (2 - 2 * ((0 : ℕ) : ℚ) / (((2 : ℕ) : ℚ) - 1))
            (((get_special_solutions true emptyState.pop 3).2.1.getD 0 default).pos)
            (((get_special_solutions true emptyState.pop 3).2.1.getD 1 default).pos)
            (((get_special_solutions true emptyState.pop 3).2.1.getD 2 default).pos) o.pos d))
          = true
        then o
        else ⟨bgCand id (2 - 2 * ((0 : ℕ) : ℚ) / (((2 : ℕ) : ℚ) - 1))
            (((get_special_solutions true emptyState.pop 3).2.1.getD 0 default).pos)
            (((get_special_solutions true emptyState.pop 3).2.1.getD 1 default).pos)
            (((get_special_solutions true emptyState.pop 3).2.1.getD 2 default).pos) o.pos d,
          fzero (bgCand id (2 - 2 * ((0 : ℕ) : ℚ) / (((2 : ℕ) : ℚ) - 1))
            (((get_special_solutions true emptyState.pop 3).2.1.getD 0 default).pos)
            (((get_special_solutions true emptyState.pop 3).2.1.getD 1 default).pos)
            (((get_special_solutions true emptyState.pop 3).2.1.getD 2 default).pos) o.pos d)⟩)
        emptyState.pop [])) :=
  ⟨⟨by decide, rfl⟩, C8_tie_replacement true fzero id 0 2 [] emptyState (by decide) rfl⟩

/-- C9: in incremental mode, a `GWO_WOA_M` / `GWO_WOA_O` loop iteration whose
branch draw satisfies `p < 0.5` changes nothing: the computed position is
neither repaired, evaluated, appended to the candidate list, nor merged, and
the population is left exactly as it was; consequently, when every draw of an
epoch has `p < 0.5`, the incremental `evolve` returns the state unchanged —
only `p >= 0.5` iterations can modify the population. -/
theorem C9_hybrid_p_lt_half_frame (mm : Bool) (f : List ℚ → ℚ) (amend : List ℚ → List ℚ)
    (rexp rcos : ℚ → ℚ) (rpi a : ℚ) (gB L1 L2 L3 : List ℚ)
    (pop : List Solution) (pn : List (List ℚ)) (idx : ℕ)
    (dM : MDraws) (dsM : List MDraws) (dO : ODraws) (dsO : List ODraws)
    (t T : ℕ) (drawsM : List MDraws) (drawsO : List ODraws) (s : OptState) :
    (dM.p < 1/2 →
      mLoop mm f amend .incremental a gB L1 L2 L3 pop pn idx (dM :: dsM) =
        mLoop mm f amend .incremental a gB L1 L2 L3 pop pn (idx + 1) dsM) ∧
    (dO.p < 1/2 →
      oLoop mm f amend rexp rcos rpi .incremental a gB L1 L2 L3 pop pn idx (dO :: dsO) =
        oLoop mm f amend rexp rcos rpi .incremental a gB L1 L2 L3 pop pn (idx + 1) dsO) ∧
    ((∀ d ∈ drawsM, d.p < 1/2) →
      (gwoWoaM_evolve mm f amend .incremental t T drawsM s).elim True fun s1 => s1 = s) ∧
    ((∀ d ∈ drawsO, d.p < 1/2) →
      (gwoWoaO_evolve mm f amend rexp rcos rpi .incremental t T drawsO s).elim True
        fun s1 => s1 = s) := by
  refine ⟨fun hp => mLoop_skip_step mm f amend a gB L1 L2 L3 pop pn idx dM dsM hp,
    fun hp => oLoop_skip_step mm f amend rexp rcos rpi a gB L1 L2 L3 pop pn idx dO dsO hp,
    ?_, ?_⟩
  · intro hall
    cases h : pyDiv (2 * (t : ℚ)) ((T : ℚ) - 1) with
    | none => simp [gwoWoaM_evolve, h]
    | some q =>
      cases h2 : pyDiv (-1) ((T : ℚ)) with
      | none => simp [gwoWoaM_evolve, h, h2]
      | some q2 =>
        simp only [gwoWoaM_evolve, h, h2, Option.bind_some, Option.some_bind, bind,
          Option.bind, Option.elim_some]
        rw [mLoop_allSkip mm f amend (2 - q) s.gBest.pos
          (((get_special_solutions mm s.pop 3).2.1.getD 0 default).pos)
          (((get_special_solutions mm s.pop 3).2.1.getD 1 default).pos)
          (((get_special_solutions mm s.pop 3).2.1.getD 2 default).pos)
          drawsM s.pop [] 0 hall]
  · intro hall
    cases h : pyDiv ((t : ℚ)) (2 * (T : ℚ)) with
    | none => simp [gwoWoaO_evolve, gwoWoaO_a, h]
    | some q =>
      simp only [gwoWoaO_evolve, gwoWoaO_a, h, Option.map_some', Option.bind_some,
        Option.some_bind, bind, Option.bind, Option.elim_some]
      rw [oLoop_allSkip mm f amend rexp rcos rpi (2 * (1 - q)) s.gBest.pos
        (((get_special_solutions mm s.pop 3).2.1.getD 0 default).pos)
        (((get_special_solutions mm s.pop 3).2.1.getD 1 default).pos)
        (((get_special_solutions mm s.pop 3).2.1.getD 2 default).pos)
        drawsO s.pop [] 0 hall]

/-- Witness for C9 at a concrete instance. -/
theorem C9_hybrid_p_lt_half_frame_witness :
    (dM2.p < 1/2 ∧
      mLoop true fzero id .incremental 1 [0] [1] [0] [0] [] [] 0 [dM2] =
        mLoop true fzero id .incremental 1 [0] [1] [0] [0] [] [] 1 []) ∧
    (dO2.p < 1/2 ∧
      oLoop true fzero id id id 0 .incremental 1 [0] [1] [0] [0] [] [] 0 [dO2] =
        oLoop true fzero id id id 0 .incremental 1 [0] [1] [0] [0] [] [] 1 []) ∧
    ((∀ d ∈ [dM2], d.p < 1/2) ∧
      (gwoWoaM_evolve true fzero id .incremental 0 2 [dM2] tieState).elim True
        fun s1 => s1 = tieState) ∧
    ((∀ d ∈ [dO2], d.p < 1/2) ∧
      (gwoWoaO_evolve true fzero id id id 0 .incremental 0 2 [dO2] tieState).elim True
        fun s1 => s1 = tieState) := by
  have hm : ∀ d ∈ [dM2], d.p < 1/2 := by
    intro d hd
    simp only [List.mem_singleton] at hd
    subst hd
    norm_num [dM2]
  have ho : ∀ d ∈ [dO2], d.p < 1/2 := by
    intro d hd
    simp only [List.mem_singleton] at hd
    subst hd
    norm_num [dO2]
  exact ⟨⟨hm dM2 (by simp),
      (C9_hybrid_p_lt_half_frame true fzero id id id 0 1 [0] [1] [0] [0] [] [] 0 dM2 []
        dO2 [] 0 2 [dM2] [dO2] tieState).1 (hm dM2 (by simp))⟩,
    ⟨ho dO2 (by simp),
      (C9_hybrid_p_lt_half_frame true fzero id id id 0 1 [0] [1] [0] [0] [] [] 0 dM2 []
        dO2 [] 0 2 [dM2] [dO2] tieState).2.1 (ho dO2 (by simp))⟩,
    ⟨hm,
      (C9_hybrid_p_lt_half_frame true fzero id id id 0 1 [0] [1] [0] [0] [] [] 0 dM2 []
        dO2 [] 0 2 [dM2] [dO2] tieState).2.2.1 hm⟩,
    ⟨ho,
      (C9_hybrid_p_lt_half_frame true fzero id id id 0 1 [0] [1] [0] [0] [] [] 0 dM2 []
        dO2 [] 0 2 [dM2] [dO2] tieState).2.2.2 ho⟩⟩

lemma rwLeaderPhase_bounds {Q : List ℚ → Prop} (mm : Bool) (f : List ℚ → ℚ)
    (amend : List ℚ → List ℚ) (mode : EvalMode) (a : ℚ) (L0 : List Solution)
    (cauchy : List (List ℚ)) (hamend : ∀ p, Q (amend p))
    (hlen : cauchy.length ≤ L0.length) (hL0 : ∀ y ∈ L0, Q y.pos) :
    ∀ y ∈ rwLeaderPhase mm f amend mode a L0 cauchy, Q y.pos := by
  have hb := stdLoop_bounds mm f mode (rwLeaderCand amend a)
    (fun P c => hamend _) cauchy L0 [] 0 (by omega) hL0 (by simp)
  exact modeMerge_bounds hb.1 hb.2

lemma rwPopPhase_bounds {Q : List ℚ → Prop} (mm : Bool) (f : List ℚ → ℚ)
    (amend : List ℚ → List ℚ) (mode : EvalMode) (b : ℚ) (leaders : List Solution)
    (G : List ℚ) (pop : List Solution) (draws : List RWDraws)
    (hamend : ∀ p, Q (amend p)) (hlen : draws.length ≤ pop.length)
    (hpop : ∀ y ∈ pop, Q y.pos) :
    ∀ y ∈ rwPopPhase mm f amend mode b leaders G pop draws, Q y.pos := by
  have hb := stdLoop_bounds mm f mode
    (rwCand amend b (leaders.getD 0 default).pos (leaders.getD 1 default).pos
      (leaders.getD 2 default).pos G)
    (fun P d => hamend _) draws pop [] 0 (by omega) hpop (by simp)
  exact modeMerge_bounds hb.1 hb.2

/-- C4: assuming the repair collaborator always returns an in-bounds vector
and the pre-epoch population is in bounds, the population any `evolve` call
returns is in bounds coordinatewise, for every strategy and both modes: only
repaired candidates (or surviving members) ever enter the population. -/
theorem C4_boundary_invariant (mm : Bool) (f : List ℚ → ℚ) (amend : List ℚ → List ℚ)
    (rexp rcos : ℚ → ℚ) (rpi : ℚ) (mode : EvalMode) (popSize t T : ℕ)
    (lb ub : List ℚ) (dbg : List BGDraws) (cauchy : List (List ℚ)) (drw : List RWDraws)
    (dm : List MDraws) (dod : List ODraws) (s : OptState)
    (hamend : ∀ p, InBounds lb ub (amend p))
    (hpop : ∀ y ∈ s.pop, InBounds lb ub y.pos)
    (hdbg : dbg.length ≤ s.pop.length) (hcauchy : cauchy.length ≤ 3)
    (hpop3 : 3 ≤ s.pop.length) (hdrw : drw.length ≤ s.pop.length)
    (hdm : dm.length ≤ s.pop.length) (hdod : dod.length ≤ s.pop.length) :
    ((baseGWO_evolve mm f amend mode t T dbg s).elim True fun s1 =>
      ∀ y ∈ s1.pop, InBounds lb ub y.pos) ∧
    ((rw_evolve mm f amend mode popSize t T cauchy drw s).elim True fun s1 =>
      ∀ y ∈ s1.pop, InBounds lb ub y.pos) ∧
    ((gwoWoaM_evolve mm f amend mode t T dm s).elim True fun s1 =>
      ∀ y ∈ s1.pop, InBounds lb ub y.pos) ∧
    ((gwoWoaO_evolve mm f amend rexp rcos rpi mode t T dod s).elim True fun s1 =>
      ∀ y ∈ s1.pop, InBounds lb ub y.pos) := by
  refine ⟨?_, ?_, ?_, ?_⟩
  · cases h : pyDiv (2 * (t : ℚ)) ((T : ℚ) - 1) with
    | none => simp [baseGWO_evolve, h]
    | some q =>
      simp only [baseGWO_evolve, h, Option.map_some', Option.elim_some]
      have hb := stdLoop_bounds mm f mode
        (bgCand amend (2 - q)
          (((get_special_solutions mm s.pop 3).2.1.getD 0 default).pos)
          (((get_special_solutions mm s.pop 3).2.1.getD 1 default).pos)
          (((get_special_solutions mm s.pop 3).2.1.getD 2 default).pos))
        (fun P d => hamend _) dbg s.pop [] 0 (by omega) hpop (by simp)
      exact modeMerge_bounds hb.1 hb.2
  · cases h : pyDiv (2 * (t : ℚ)) ((T : ℚ) - 1) with
    | none => simp [rw_evolve, h]
    | some q =>
      simp only [rw_evolve, h, Option.bind_some, Option.some_bind, bind, Option.bind,
        Option.elim_some]
      intro y hy
      have hlen0 : ((get_special_solutions mm s.pop 3).2.1).length = 3 := by
        simp [get_special_solutions, length_sortSol]
        omega
      have hlead : ∀ z ∈ rwLeaderPhase mm f amend mode (2 - q)
          ((get_special_solutions mm s.pop 3).2.1) cauchy, InBounds lb ub z.pos := by
        apply rwLeaderPhase_bounds mm f amend mode (2 - q) _ cauchy hamend (by omega)
        intro z hz
        exact hpop z (mem_sortSol (List.take_subset _ _ hz))
      have hy2 := mem_sortSol (List.take_subset _ _ hy)
      rcases List.mem_append.mp hy2 with h1 | h1
      · exact rwPopPhase_bounds mm f amend mode (2 - q) _ s.gBest.pos s.pop drw
          hamend (by omega) hpop y h1
      · exact hlead y h1
  · cases h : pyDiv (2 * (t : ℚ)) ((T : ℚ) - 1) with
    | none => simp [gwoWoaM_evolve, h]
    | some q =>
      cases h2 : pyDiv (-1) ((T : ℚ)) with
      | none => simp [gwoWoaM_evolve, h, h2]
      | some q2 =>
        simp only [gwoWoaM_evolve, h, h2, Option.bind_some, Option.some_bind, bind,
          Option.bind, Option.elim_some]
        exact mLoop_bounds mm f amend mode (2 - q) s.gBest.pos
          (((get_special_solutions mm s.pop 3).2.1.getD 0 default).pos)
          (((get_special_solutions mm s.pop 3).2.1.getD 1 default).pos)
          (((get_special_solutions mm s.pop 3).2.1.getD 2 default).pos)
          hamend dm s.pop [] 0 (by omega) hpop (by simp)
  · cases h : pyDiv ((t : ℚ)) (2 * (T : ℚ)) with
    | none => simp [gwoWoaO_evolve, gwoWoaO_a, h]
    | some q =>
      simp only [gwoWoaO_evolve, gwoWoaO_a, h, Option.map_some', Option.bind_some,
        Option.some_bind, bind, Option.bind, Option.elim_some]
      exact oLoop_bounds mm f amend rexp rcos rpi mode (2 * (1 - q)) s.gBest.pos
        (((get_special_solutions mm s.pop 3).2.1.getD 0 default).pos)
        (((get_special_solutions mm s.pop 3).2.1.getD 1 default).pos)
        (((get_special_solutions mm s.pop 3).2.1.getD 2 default).pos)
        hamend dod s.pop [] 0 (by omega) hpop (by simp)

/-- A degenerate repair collaborator used by the C4 witness: it maps every
position to `[0]`, which lies inside the witness bounds `[-10], [10]`. -/
def amendW : List ℚ → List ℚ := fun _ => [0]

lemma amendW_inBounds : ∀ p : List ℚ, InBounds [-10] [10] (amendW p) := by
  intro p
  unfold InBounds amendW
  intro i hi
  simp only [List.length_singleton, List.mem_range] at hi
  have h0 : i = 0 := by omega
  subst h0
  norm_num [List.getD]

lemma samplePop_inBounds : ∀ y ∈ samplePop, InBounds [-10] [10] y.pos := by
  intro y hy
  simp only [samplePop, List.mem_cons, List.not_mem_nil, or_false] at hy
  rcases hy with rfl | rfl | rfl <;>
  · unfold InBounds
    intro i hi
    simp only [List.length_singleton, List.mem_range] at hi
    have h0 : i = 0 := by omega
    subst h0
    norm_num [List.getD]

/-- Witness for C4 at a concrete instance. -/
theorem C4_boundary_invariant_witness :
    ((∀ p, InBounds [-10] [10] (amendW p)) ∧
      (∀ y ∈ sampleState.pop, InBounds [-10] [10] y.pos) ∧
      ([dBG0, dBG0, dBG0] : List BGDraws).length ≤ sampleState.pop.length ∧
      ([[0], [0], [0]] : List (List ℚ)).length ≤ 3 ∧ 3 ≤ sampleState.pop.length ∧
      ([dRW0, dRW0, dRW0] : List RWDraws).length ≤ sampleState.pop.length ∧
      ([dM0, dM0, dM0] : List MDraws).length ≤ sampleState.pop.length ∧
      ([dO0, dO0, dO0] : List ODraws).length ≤ sampleState.pop.length) ∧
    (((baseGWO_evolve true f0 amendW .batch 0 2 [dBG0, dBG0, dBG0] sampleState).elim True
      fun s1 => ∀ y ∈ s1.pop, InBounds [-10] [10] y.pos) ∧
    ((rw_evolve true f0 amendW .batch 3 0 2 [[0], [0], [0]] [dRW0, dRW0, dRW0]
        sampleState).elim True fun s1 => ∀ y ∈ s1.pop, InBounds [-10] [10] y.pos) ∧
    ((gwoWoaM_evolve true f0 amendW .batch 0 2 [dM0, dM0, dM0] sampleState).elim True
      fun s1 => ∀ y ∈ s1.pop, InBounds [-10] [10] y.pos) ∧
    ((gwoWoaO_evolve true f0 amendW id id 0 .batch 0 2 [dO0, dO0, dO0] sampleState).elim True
      fun s1 => ∀ y ∈ s1.pop, InBounds [-10] [10] y.pos)) :=
  ⟨⟨amendW_inBounds, samplePop_inBounds, by decide, by decide, by decide, by decide,
      by decide, by decide⟩,
    C4_boundary_invariant true f0 amendW id id 0 .batch 3 0 2 [-10] [10]
      [dBG0, dBG0, dBG0] [[0], [0], [0]] [dRW0, dRW0, dRW0] [dM0, dM0, dM0] [dO0, dO0, dO0]
      sampleState amendW_inBounds samplePop_inBounds (by decide) (by decide) (by decide)
      (by decide) (by decide) (by decide)⟩

/-- Witness for C3 at a concrete instance. -/
theorem C3_basegwo_update_witness :
    (1 < 2 ∧ ([dBG0, dBG0, dBG0] : List BGDraws).length = sampleState.pop.length) ∧
    baseGWO_evolve true f0 id .incremental 0 2 [dBG0, dBG0, dBG0] sampleState =
      some (specBaseGWO_evolve true f0 id .incremental 0 2 [dBG0, dBG0, dBG0] sampleState) :=
  ⟨⟨by decide, by decide⟩,
    C3_basegwo_update true f0 id .incremental 0 2 [dBG0, dBG0, dBG0] sampleState
      (by decide) (by decide)⟩

end GWO
